import Mathlib

set_option autoImplicit false

namespace AimFredericton

/-!
Shallow embedding of the state-bearing core of the MissTMac/project-aim-fredericton
browser application (src/static/js/app.js and the bundled PDF.js URL helper):
the PDF tab manager, the sessionStorage persistence layer, the floating window
manager, the overlay registry, and the viewer-URL builder.

Conventions used throughout:
* JavaScript objects used as string-keyed maps (openPdfs, overlays) are modelled
  as association lists in insertion order.  All keys arising in this program are
  non-integer-like strings (PDF filenames, labels), for which JavaScript property
  enumeration order is exactly insertion order.
* DOM fragments are modelled by the fields the program reads back from them
  (checkbox checked flags, tab active classes, window display/z-index, dock
  buttons), not by full markup.
* The decimal rendering of a JavaScript number interpolated into a template
  string is modelled by natStr below.
-/

/-- Decimal digit character, 0 ≤ d ≤ 9 mapped onto codepoints 48..57. -/
def digitChar (d : Nat) : Char := Char.ofNat (48 + d)

/-- Most-significant-first decimal digits, with structural fuel so that the
definition evaluates inside the kernel. -/
def natDigitsAux : Nat → Nat → List Char
  | 0, n => [digitChar (n % 10)]
  | fuel+1, n =>
    if n < 10 then [digitChar n]
    else natDigitsAux fuel (n / 10) ++ [digitChar (n % 10)]

/-- Most-significant-first decimal digits of a natural number. -/
def natDigits (n : Nat) : List Char := natDigitsAux n n

/-- Decimal rendering of a natural number (the JS template interpolation of a
number variable). -/
def natStr (n : Nat) : String := String.mk (natDigits n)

theorem char_toNat_lt (c : Char) : c.toNat < 1114112 := by
  have h := c.valid
  rcases h with h | h
  · exact Nat.lt_trans h (by omega)
  · exact h.2

theorem char_toNat_ofNat_valid {n : Nat} (h : Nat.isValidChar n) : (Char.ofNat n).toNat = n := by
  simp only [Char.ofNat, Char.toNat]
  rw [dif_pos h]
  have hlt : n < 4294967296 := by
    rcases h with h | h
    · omega
    · omega
  simp [Char.ofNatAux, UInt32.toNat, UInt32.ofNat', Nat.mod_eq_of_lt hlt]

theorem char_toNat_ofNat_lt {n : Nat} (h : n < 55296) : (Char.ofNat n).toNat = n :=
  char_toNat_ofNat_valid (Or.inl h)

theorem char_ofNat_toNat (c : Char) : Char.ofNat c.toNat = c := by
  have h := c.valid
  have h2 : (Char.ofNat c.toNat).toNat = c.toNat := char_toNat_ofNat_valid h
  have h3 : (Char.ofNat c.toNat).val = c.val := by
    apply UInt32.ext
    exact h2
  exact Char.ext h3

/-- Value of a most-significant-first digit string. -/
def digitsVal (ds : List Char) : Nat :=
  ds.foldl (fun a c => a * 10 + (c.toNat - 48)) 0

theorem digitsVal_append_one (ds : List Char) (c : Char) :
    digitsVal (ds ++ [c]) = digitsVal ds * 10 + (c.toNat - 48) := by
  simp [digitsVal, List.foldl_append]

theorem digitsVal_natDigitsAux (fuel n : Nat) (hf : n <= fuel) :
    digitsVal (natDigitsAux fuel n) = n := by
  induction fuel generalizing n with
  | zero =>
    have h0 : n = 0 := by omega
    subst h0
    simp only [natDigitsAux, digitsVal, List.foldl]
    rw [digitChar, char_toNat_ofNat_lt (by omega)]
  | succ fuel ih =>
    rw [natDigitsAux]
    by_cases h : n < 10
    · simp only [if_pos h, digitsVal, List.foldl]
      rw [digitChar, char_toNat_ofNat_lt (by omega)]
      omega
    · have hdiv : n / 10 <= fuel := by
        have := Nat.div_lt_self (show 0 < n by omega) (show 1 < 10 by omega)
        omega
      rw [if_neg h, digitsVal_append_one, ih (n / 10) hdiv,
        digitChar, char_toNat_ofNat_lt (by omega)]
      omega

theorem digitsVal_natDigits (n : Nat) : digitsVal (natDigits n) = n :=
  digitsVal_natDigitsAux n n (Nat.le_refl n)

theorem natStr_injective : Function.Injective natStr := by
  intro a b h
  have ha : digitsVal (natDigits a) = digitsVal (natDigits b) := by
    have : natDigits a = natDigits b := by
      have := congrArg String.data h
      simpa [natStr] using this
    rw [this]
  rwa [digitsVal_natDigits, digitsVal_natDigits] at ha

/-- UTF-8 bytes of a Unicode codepoint. -/
def utf8Enc (n : Nat) : List Nat :=
  if n < 128 then [n]
  else if n < 2048 then [192 + n / 64, 128 + n % 64]
  else if n < 65536 then [224 + n / 4096, 128 + n / 64 % 64, 128 + n % 64]
  else [240 + n / 262144, 128 + n / 4096 % 64, 128 + n / 64 % 64, 128 + n % 64]

def utf8DecF : Nat → List Nat → Option (List Char)
  | _, [] => some []
  | 0, _ :: _ => none
  | fuel+1, b :: bs =>
    if b < 128 then (utf8DecF fuel bs).map (fun cs => Char.ofNat b :: cs)
    else if b < 192 then none
    else if b < 224 then
      match bs with
      | b2 :: rest => (utf8DecF fuel rest).map (fun cs => Char.ofNat ((b - 192) * 64 + (b2 - 128)) :: cs)
      | [] => none
    else if b < 240 then
      match bs with
      | b2 :: b3 :: rest =>
          (utf8DecF fuel rest).map (fun cs =>
            Char.ofNat ((b - 224) * 4096 + (b2 - 128) * 64 + (b3 - 128)) :: cs)
      | _ => none
    else
      match bs with
      | b2 :: b3 :: b4 :: rest =>
          (utf8DecF fuel rest).map (fun cs =>
            Char.ofNat ((b - 240) * 262144 + (b2 - 128) * 4096 + (b3 - 128) * 64 + (b4 - 128)) :: cs)
      | _ => none

def utf8Dec (l : List Nat) : Option (List Char) := utf8DecF l.length l

theorem utf8DecF_utf8Enc_append (f n : Nat) (h : n < 1114112) (bs : List Nat) :
    utf8DecF (f + 1) (utf8Enc n ++ bs) = (utf8DecF f bs).map (fun cs => Char.ofNat n :: cs) := by
  unfold utf8Enc
  by_cases h1 : n < 128
  · rw [if_pos h1, List.cons_append, List.nil_append]
    simp only [utf8DecF]
    rw [if_pos h1]
  · rw [if_neg h1]
    by_cases h2 : n < 2048
    · rw [if_pos h2, List.cons_append, List.cons_append, List.nil_append]
      simp only [utf8DecF]
      rw [if_neg (by omega), if_neg (by omega), if_pos (by omega)]
      have e : (192 + n / 64 - 192) * 64 + (128 + n % 64 - 128) = n := by omega
      simp only [e]
    · rw [if_neg h2]
      by_cases h3 : n < 65536
      · rw [if_pos h3, List.cons_append, List.cons_append, List.cons_append,
          List.nil_append]
        simp only [utf8DecF]
        rw [if_neg (by omega), if_neg (by omega), if_neg (by omega), if_pos (by omega)]
        have e : (224 + n / 4096 - 224) * 4096 + (128 + n / 64 % 64 - 128) * 64 +
            (128 + n % 64 - 128) = n := by omega
        simp only [e]
      · rw [if_neg h3, List.cons_append, List.cons_append, List.cons_append,
          List.cons_append, List.nil_append]
        simp only [utf8DecF]
        rw [if_neg (by omega), if_neg (by omega), if_neg (by omega), if_neg (by omega)]
        have e : (240 + n / 262144 - 240) * 262144 + (128 + n / 4096 % 64 - 128) * 4096 +
            (128 + n / 64 % 64 - 128) * 64 + (128 + n % 64 - 128) = n := by omega
        simp only [e]

def utf8EncodeChars (cs : List Char) : List Nat :=
  cs.flatMap (fun c => utf8Enc c.toNat)

theorem utf8DecF_utf8EncodeChars (cs : List Char) (fuel : Nat) (hf : cs.length <= fuel) :
    utf8DecF fuel (utf8EncodeChars cs) = some cs := by
  induction cs generalizing fuel with
  | nil => cases fuel <;> rfl
  | cons c cs ih =>
    match fuel, hf with
    | f + 1, hf =>
      rw [utf8EncodeChars, List.flatMap_cons]
      rw [show (cs.flatMap (fun c => utf8Enc c.toNat)) = utf8EncodeChars cs from rfl]
      rw [utf8DecF_utf8Enc_append f c.toNat (char_toNat_lt c), ih f (by simpa using hf)]
      simp [char_ofNat_toNat]

theorem length_le_utf8EncodeChars (cs : List Char) :
    cs.length <= (utf8EncodeChars cs).length := by
  induction cs with
  | nil => simp [utf8EncodeChars]
  | cons c cs ih =>
    rw [utf8EncodeChars, List.flatMap_cons, List.length_append]
    have h1 : 1 <= (utf8Enc c.toNat).length := by
      unfold utf8Enc
      by_cases h1 : c.toNat < 128
      · simp [h1]
      · by_cases h2 : c.toNat < 2048
        · simp [h1, h2]
        · by_cases h3 : c.toNat < 65536 <;> simp [h1, h2, h3]
    have h2 := ih
    rw [utf8EncodeChars] at h2
    simp only [List.length_cons]
    omega

theorem utf8Dec_utf8EncodeChars (cs : List Char) :
    utf8Dec (utf8EncodeChars cs) = some cs :=
  utf8DecF_utf8EncodeChars cs _ (length_le_utf8EncodeChars cs)

def hexDigitChar (d : Nat) : Char :=
  if d < 10 then Char.ofNat (48 + d) else Char.ofNat (55 + d)

def hexVal (c : Char) : Option Nat :=
  if 48 <= c.toNat && c.toNat <= 57 then some (c.toNat - 48)
  else if 65 <= c.toNat && c.toNat <= 70 then some (c.toNat - 55)
  else if 97 <= c.toNat && c.toNat <= 102 then some (c.toNat - 87)
  else none

theorem hexVal_hexDigitChar (d : Nat) (h : d < 16) : hexVal (hexDigitChar d) = some d := by
  unfold hexDigitChar hexVal
  by_cases h1 : d < 10
  · rw [if_pos h1]
    have ht : (Char.ofNat (48 + d)).toNat = 48 + d := char_toNat_ofNat_lt (by omega)
    rw [ht, if_pos (by simp; omega)]
    exact congrArg some (by omega)
  · rw [if_neg h1]
    have ht : (Char.ofNat (55 + d)).toNat = 55 + d := char_toNat_ofNat_lt (by omega)
    rw [ht, if_neg (by simp; omega), if_pos (by simp; omega)]
    exact congrArg some (by omega)

def pctEncodeBytes (safe : Nat → Bool) (plusSpace : Bool) : List Nat → List Char
  | [] => []
  | b :: bs =>
    (if plusSpace && b == 32 then [Char.ofNat 43]
     else if safe b then [Char.ofNat b]
     else [Char.ofNat 37, hexDigitChar (b / 16), hexDigitChar (b % 16)]) ++
    pctEncodeBytes safe plusSpace bs

def pctDecodeF (plusSpace : Bool) : Nat → List Char → Option (List Nat)
  | _, [] => some []
  | 0, _ :: _ => none
  | fuel+1, c :: cs =>
    if c = Char.ofNat 37 then
      match cs with
      | h :: l :: rest =>
        match hexVal h, hexVal l, pctDecodeF plusSpace fuel rest with
        | some x, some y, some r => some ((16 * x + y) :: r)
        | _, _, _ => none
      | _ => none
    else
      (pctDecodeF plusSpace fuel cs).map
        (fun rest => (if plusSpace && c == Char.ofNat 43 then 32 else c.toNat) :: rest)

def pctDecode (plusSpace : Bool) (cs : List Char) : Option (List Nat) :=
  pctDecodeF plusSpace cs.length cs

theorem char_ofNat_ne {a b : Nat} (ha : a < 55296) (hb : b < 55296) (hne : a ≠ b) :
    Char.ofNat a ≠ Char.ofNat b := by
  intro hc
  apply hne
  have h2 := congrArg Char.toNat hc
  rwa [char_toNat_ofNat_lt ha, char_toNat_ofNat_lt hb] at h2

theorem pctDecodeF_encode (safe : Nat → Bool) (plusSpace : Bool)
    (hpct : safe 37 = false) (hplus : plusSpace = true → safe 43 = false)
    (bs : List Nat) (hb : ∀ b ∈ bs, b < 256) (fuel : Nat) (hf : bs.length <= fuel) :
    pctDecodeF plusSpace fuel (pctEncodeBytes safe plusSpace bs) = some bs := by
  induction bs generalizing fuel with
  | nil => cases fuel <;> rfl
  | cons b bs ih =>
    have hblt : b < 256 := hb b (List.mem_cons_self b bs)
    match fuel, hf with
    | f + 1, hf =>
    have ihh := ih (fun x hx => hb x (List.mem_cons_of_mem b hx)) f (by
      simp only [List.length_cons] at hf
      omega)
    rw [pctEncodeBytes]
    by_cases hsp : plusSpace && b == 32
    · rw [if_pos hsp, List.cons_append, List.nil_append]
      simp only [Bool.and_eq_true, beq_iff_eq] at hsp
      simp only [pctDecodeF]
      rw [if_neg (char_ofNat_ne (by omega) (by omega) (by omega)), ihh]
      simp [hsp.1, hsp.2]
    · rw [if_neg hsp]
      by_cases hsafe : safe b
      · rw [if_pos hsafe, List.cons_append, List.nil_append]
        have hne37 : b ≠ 37 := by
          intro hc
          rw [hc, hpct] at hsafe
          exact Bool.false_ne_true hsafe
        have htn : (Char.ofNat b).toNat = b := char_toNat_ofNat_lt (by omega)
        simp only [pctDecodeF]
        rw [if_neg (char_ofNat_ne (by omega) (by omega) hne37), ihh]
        have hnplus : (plusSpace && Char.ofNat b == Char.ofNat 43) = false := by
          cases hps : plusSpace
          · rfl
          · have hne43 : b ≠ 43 := by
              intro hc
              rw [hc, hplus hps] at hsafe
              exact Bool.false_ne_true hsafe
            simp only [Bool.true_and, beq_eq_false_iff_ne, ne_eq]
            exact char_ofNat_ne (by omega) (by omega) hne43
        simp [hnplus, htn]
      · rw [if_neg hsafe, List.cons_append, List.cons_append, List.cons_append, List.nil_append]
        simp only [pctDecodeF]
        rw [if_pos trivial,
          hexVal_hexDigitChar (b / 16) (by omega), hexVal_hexDigitChar (b % 16) (by omega), ihh]
        exact congrArg some (by
          have h2 : 16 * (b / 16) + b % 16 = b := by omega
          rw [h2])

theorem length_le_pctEncodeBytes (safe : Nat → Bool) (plusSpace : Bool) (bs : List Nat) :
    bs.length <= (pctEncodeBytes safe plusSpace bs).length := by
  induction bs with
  | nil => simp [pctEncodeBytes]
  | cons b bs ih =>
    rw [pctEncodeBytes, List.length_append, List.length_cons]
    by_cases hsp : plusSpace && b == 32
    · rw [if_pos hsp]
      simp only [List.length_cons, List.length_nil]
      omega
    · rw [if_neg hsp]
      by_cases hsafe : safe b
      · rw [if_pos hsafe]
        simp only [List.length_cons, List.length_nil]
        omega
      · rw [if_neg hsafe]
        simp only [List.length_cons, List.length_nil]
        omega

theorem pctDecode_encode (safe : Nat → Bool) (plusSpace : Bool)
    (hpct : safe 37 = false) (hplus : plusSpace = true → safe 43 = false)
    (bs : List Nat) (hb : ∀ b ∈ bs, b < 256) :
    pctDecode plusSpace (pctEncodeBytes safe plusSpace bs) = some bs :=
  pctDecodeF_encode safe plusSpace hpct hplus bs hb _ (length_le_pctEncodeBytes safe plusSpace bs)

/-- Bytes safe under application/x-www-form-urlencoded serialization
(URLSearchParams.toString): ASCII alphanumerics and * - . _ . -/
def formSafeByte (b : Nat) : Bool :=
  (48 <= b && b <= 57) || (65 <= b && b <= 90) || (97 <= b && b <= 122) ||
  b == 42 || b == 45 || b == 46 || b == 95

/-- Bytes left intact by encodeURIComponent: ASCII alphanumerics and
- _ . ! ~ * \x27 ( ) . -/
def uriSafeByte (b : Nat) : Bool :=
  (48 <= b && b <= 57) || (65 <= b && b <= 90) || (97 <= b && b <= 122) ||
  b == 45 || b == 95 || b == 46 || b == 33 || b == 126 || b == 42 ||
  b == 39 || b == 40 || b == 41

/-- URLSearchParams form-encoding of one string (UTF-8 bytes, space as +). -/
def formEncode (s : String) : String :=
  String.mk (pctEncodeBytes formSafeByte true (utf8EncodeChars s.data))

/-- The JavaScript encodeURIComponent function. -/
def uriEncode (s : String) : String :=
  String.mk (pctEncodeBytes uriSafeByte false (utf8EncodeChars s.data))

/-- Left inverse of formEncode. -/
def formDecode (s : String) : Option String :=
  (pctDecode true s.data).bind (fun bs => (utf8Dec bs).map String.mk)

/-- Left inverse of uriEncode (decodeURIComponent composed with + handling off). -/
def uriDecode (s : String) : Option String :=
  (pctDecode false s.data).bind (fun bs => (utf8Dec bs).map String.mk)

theorem utf8Enc_bytes_lt (n : Nat) (h : n < 1114112) : ∀ b ∈ utf8Enc n, b < 256 := by
  intro b hb
  unfold utf8Enc at hb
  by_cases h1 : n < 128
  · rw [if_pos h1] at hb
    simp at hb
    omega
  · rw [if_neg h1] at hb
    by_cases h2 : n < 2048
    · rw [if_pos h2] at hb
      simp at hb
      rcases hb with hb | hb <;> omega
    · rw [if_neg h2] at hb
      by_cases h3 : n < 65536
      · rw [if_pos h3] at hb
        simp at hb
        rcases hb with hb | hb | hb <;> omega
      · rw [if_neg h3] at hb
        simp at hb
        rcases hb with hb | hb | hb | hb <;> omega

theorem utf8EncodeChars_bytes_lt (cs : List Char) : ∀ b ∈ utf8EncodeChars cs, b < 256 := by
  intro b hb
  rw [utf8EncodeChars, List.mem_flatMap] at hb
  rcases hb with ⟨c, _, hbc⟩
  exact utf8Enc_bytes_lt c.toNat (char_toNat_lt c) b hbc

theorem formDecode_formEncode (s : String) : formDecode (formEncode s) = some s := by
  unfold formDecode formEncode
  rw [show (String.mk (pctEncodeBytes formSafeByte true (utf8EncodeChars s.data))).data
      = pctEncodeBytes formSafeByte true (utf8EncodeChars s.data) from rfl]
  rw [pctDecode_encode formSafeByte true (by decide) (fun _ => by decide)
      (utf8EncodeChars s.data) (utf8EncodeChars_bytes_lt s.data)]
  rw [Option.some_bind, utf8Dec_utf8EncodeChars]
  rfl

theorem uriDecode_uriEncode (s : String) : uriDecode (uriEncode s) = some s := by
  unfold uriDecode uriEncode
  rw [show (String.mk (pctEncodeBytes uriSafeByte false (utf8EncodeChars s.data))).data
      = pctEncodeBytes uriSafeByte false (utf8EncodeChars s.data) from rfl]
  rw [pctDecode_encode uriSafeByte false (by decide) (fun hc => by simp at hc)
      (utf8EncodeChars s.data) (utf8EncodeChars_bytes_lt s.data)]
  rw [Option.some_bind, utf8Dec_utf8EncodeChars]
  rfl

theorem string_data_append (a b : String) : (a ++ b).data = a.data ++ b.data := rfl

theorem string_eq_of_data (a b : String) (h : a.data = b.data) : a = b := by
  have h1 : String.mk a.data = String.mk b.data := congrArg String.mk h
  exact h1

/-- The JavaScript a || b idiom on strings, where the empty string is falsy. -/
def jsOr (a b : String) : String := if a = "" then b else a

/-!
Embedding of buildPdfJsViewerUrl (the PDF.js viewer helper source file).
Option fields model the JavaScript option object: the empty string / 0 stand
for an absent or falsy field (the app itself only ever passes truthy values
or omits the field; a numeric option such as zoom: 75 arrives here as its
decimal rendering, which is what reaches encodeURIComponent in the source).
-/

structure ViewerOpts where
  zoom : String := ""
  page : Nat := 0
  pagemode : String := ""
  view : String := ""
  aimTitle : String := ""
  title : String := ""

/-- One key=value unit of URLSearchParams.toString serialization. -/
def serializeParam (kv : String × String) : String :=
  formEncode kv.1 ++ "=" ++ formEncode kv.2

/-- URLSearchParams.toString: form-encoded pairs joined by ampersands. -/
def serializeParams : List (String × String) → String
  | [] => ""
  | [kv] => serializeParam kv
  | kv :: rest => serializeParam kv ++ "&" ++ serializeParams rest

/-- hashParts.join of the source. -/
def joinHashParts : List String → String
  | [] => ""
  | [p] => p
  | p :: rest => p ++ "&" ++ joinHashParts rest

/-- buildPdfJsViewerUrl from the PDF.js helper: fixed viewer entry point,
query string with the file (and optional aimTitle) parameters, fragment
with page / zoom / pagemode (and optional view). -/
def buildPdfJsViewerUrl (fileUrl : String) (opts : ViewerOpts) : String :=
  let zoom := if opts.zoom = "" then "page-width" else opts.zoom
  let page := if opts.page = 0 then 1 else opts.page
  let pagemode := if opts.pagemode = "" then "none" else opts.pagemode
  let view := opts.view
  let aimTitle := jsOr opts.aimTitle opts.title
  let viewerBase := "pdfjs/web/viewer.html"
  let params := [("file", fileUrl)] ++ (if aimTitle = "" then [] else [("aimTitle", aimTitle)])
  let hashParts :=
    (if page ≠ 0 then ["page=" ++ uriEncode (natStr page)] else []) ++
    ["zoom=" ++ uriEncode zoom] ++
    (if pagemode ≠ "" then ["pagemode=" ++ uriEncode pagemode] else []) ++
    (if view ≠ "" then ["view=" ++ uriEncode view] else [])
  let hash := if hashParts.isEmpty then "" else "#" ++ joinHashParts hashParts
  viewerBase ++ "?" ++ serializeParams params ++ hash

theorem formEncode_file_key : formEncode "file" = "file" := by decide

theorem formEncode_aimTitle_key : formEncode "aimTitle" = "aimTitle" := by decide

/-- C9: For every document URL and option set, buildPdfJsViewerUrl returns the
fixed viewer entry point pdfjs/web/viewer.html followed by a query string whose
file parameter carries the document URL (plus an aimTitle parameter exactly when
a display title is supplied), followed by a URL fragment carrying the initial
page number, zoom level and page-mode (plus the optional view).  The two
encoders are invertible, so the parameters determine their original values. -/
theorem c9_buildPdfJsViewerUrl_structure (u : String) (opts : ViewerOpts) :
    (buildPdfJsViewerUrl u opts =
      "pdfjs/web/viewer.html" ++ "?" ++
      ("file=" ++ formEncode u ++
        (if jsOr opts.aimTitle opts.title = "" then ""
         else "&aimTitle=" ++ formEncode (jsOr opts.aimTitle opts.title))) ++
      "#" ++
      ("page=" ++ uriEncode (natStr (if opts.page = 0 then 1 else opts.page)) ++
       "&zoom=" ++ uriEncode (if opts.zoom = "" then "page-width" else opts.zoom) ++
       "&pagemode=" ++ uriEncode (if opts.pagemode = "" then "none" else opts.pagemode) ++
       (if opts.view = "" then "" else "&view=" ++ uriEncode opts.view))) ∧
    formDecode (formEncode u) = some u ∧
    (∀ p : String, uriDecode (uriEncode p) = some p) := by
  refine ⟨?_, formDecode_formEncode u, fun p => uriDecode_uriEncode p⟩
  simp only [buildPdfJsViewerUrl]
  have hpage : (if opts.page = 0 then 1 else opts.page) ≠ 0 := by
    by_cases h : opts.page = 0 <;> simp [h]
  have hpm : (if opts.pagemode = "" then "none" else opts.pagemode) ≠ "" := by
    by_cases h : opts.pagemode = "" <;> simp [h]
  rw [if_pos hpage, if_pos hpm]
  by_cases hat : jsOr opts.aimTitle opts.title = ""
  · rw [if_pos hat, if_pos hat]
    by_cases hv : opts.view = ""
    · rw [if_neg (by simp [hv] : ¬opts.view ≠ ""), if_pos hv]
      simp only [List.append_nil, List.nil_append, List.singleton_append, List.cons_append]
      rw [show serializeParams [("file", u)] = serializeParam ("file", u) from rfl]
      rw [show serializeParam ("file", u) = formEncode "file" ++ "=" ++ formEncode u from rfl]
      rw [formEncode_file_key]
      simp only [joinHashParts]
      apply string_eq_of_data
      simp only [string_data_append, List.append_assoc]
      norm_num
    · rw [if_pos (by simp [hv] : opts.view ≠ ""), if_neg hv]
      simp only [List.append_nil, List.nil_append, List.singleton_append, List.cons_append]
      rw [show serializeParams [("file", u)] = serializeParam ("file", u) from rfl]
      rw [show serializeParam ("file", u) = formEncode "file" ++ "=" ++ formEncode u from rfl]
      rw [formEncode_file_key]
      simp only [joinHashParts]
      apply string_eq_of_data
      simp only [string_data_append, List.append_assoc]
      norm_num
  · rw [if_neg hat, if_neg hat]
    by_cases hv : opts.view = ""
    · rw [if_neg (by simp [hv] : ¬opts.view ≠ ""), if_pos hv]
      simp only [List.append_nil, List.nil_append, List.singleton_append, List.cons_append]
      rw [show serializeParams [("file", u), ("aimTitle", jsOr opts.aimTitle opts.title)] =
        serializeParam ("file", u) ++ "&" ++
          serializeParam ("aimTitle", jsOr opts.aimTitle opts.title) from rfl]
      rw [show serializeParam ("file", u) = formEncode "file" ++ "=" ++ formEncode u from rfl]
      rw [show serializeParam ("aimTitle", jsOr opts.aimTitle opts.title) =
        formEncode "aimTitle" ++ "=" ++ formEncode (jsOr opts.aimTitle opts.title) from rfl]
      rw [formEncode_file_key, formEncode_aimTitle_key]
      simp only [joinHashParts]
      apply string_eq_of_data
      simp only [string_data_append, List.append_assoc]
      norm_num
    · rw [if_pos (by simp [hv] : opts.view ≠ ""), if_neg hv]
      simp only [List.append_nil, List.nil_append, List.singleton_append, List.cons_append]
      rw [show serializeParams [("file", u), ("aimTitle", jsOr opts.aimTitle opts.title)] =
        serializeParam ("file", u) ++ "&" ++
          serializeParam ("aimTitle", jsOr opts.aimTitle opts.title) from rfl]
      rw [show serializeParam ("file", u) = formEncode "file" ++ "=" ++ formEncode u from rfl]
      rw [show serializeParam ("aimTitle", jsOr opts.aimTitle opts.title) =
        formEncode "aimTitle" ++ "=" ++ formEncode (jsOr opts.aimTitle opts.title) from rfl]
      rw [formEncode_file_key, formEncode_aimTitle_key]
      simp only [joinHashParts]
      apply string_eq_of_data
      simp only [string_data_append, List.append_assoc]
      norm_num

/-- JS String.prototype.trim on the whitespace the app encounters (ASCII). -/
def jsIsSpace (c : Char) : Bool :=
  c.toNat == 32 || c.toNat == 9 || c.toNat == 10 || c.toNat == 13 ||
  c.toNat == 12 || c.toNat == 11
def jsTrim (s : String) : String :=
  String.mk (((s.data.dropWhile jsIsSpace).reverse.dropWhile jsIsSpace).reverse)

/-- JS String.prototype.toLowerCase on the ASCII identifiers the app uses. -/
def jsToLower (s : String) : String :=
  String.mk (s.data.map (fun c =>
    if 65 <= c.toNat && c.toNat <= 90 then Char.ofNat (c.toNat + 32) else c))

/-!
## PDF tab manager (app.js lines 843-1023)

openPdfs is a JavaScript object mapping tabKey to an entry holding the tab DOM
node, url, label, underlying filename and aimTitle; modelled as an association
list in insertion order.  The active CSS class on the tab DOM node is the
tab.classList state the code toggles in activatePdfTab.
-/

structure TabDom where
  activeClass : Bool
deriving DecidableEq, Repr

structure TabEntry where
  tab : TabDom
  url : String
  label : String
  filename : Option String
  aimTitle : String
deriving DecidableEq, Repr

structure TabState where
  openPdfs : List (String × TabEntry)
  activePdfKey : Option String
  viewerSrc : String
deriving DecidableEq, Repr

/-- Lookup in a JS object modelled as an association list. -/
def jsLookup (l : List (String × TabEntry)) (k : String) : Option TabEntry :=
  match l.find? (fun p => p.1 == k) with
  | some p => some p.2
  | none => none

/-- activatePdfTab: no-op on an unknown key; otherwise records the active key,
moves the active class to the given tab, and points the embedded viewer at the
tab url through buildPdfJsViewerUrl with zoom 75 / pagemode none / the entry
aimTitle. -/
def activatePdfTab (st : TabState) (tabKey : String) : TabState :=
  match jsLookup st.openPdfs tabKey with
  | none => st
  | some e =>
    { openPdfs := st.openPdfs.map (fun p =>
        (p.1, { p.2 with tab := { activeClass := p.1 == tabKey } })),
      activePdfKey := some tabKey,
      viewerSrc := buildPdfJsViewerUrl e.url
        { zoom := "75", pagemode := "none", aimTitle := e.aimTitle } }

/-- The while loop of openPdfInTab, trying filename, filename (2), filename (3), … -/
def freshKeyAux (keys : List String) (base : String) : Nat → Nat → String
  | 0, n => base ++ " (" ++ natStr n ++ ")"
  | fuel+1, n =>
    let cand := base ++ " (" ++ natStr n ++ ")"
    if keys.contains cand then freshKeyAux keys base fuel (n+1) else cand

/-- Tab key chosen by openPdfInTab for a given filename. -/
def freshTabKey (keys : List String) (base : String) : String :=
  if keys.contains base then freshKeyAux keys base (keys.length + 1) 2 else base

/-- The regex match \((digits)\)$ used for the duplicate display label:
the digits inside a trailing parenthesized group, if any. -/
def trailingParenNum (s : String) : Option String :=
  match s.data.reverse with
  | ')' :: rest =>
    let digs := rest.takeWhile (fun c => 48 <= c.toNat && c.toNat <= 57)
    if digs.isEmpty then none
    else
      match rest.drop digs.length with
      | '(' :: _ => some (String.mk digs.reverse)
      | _ => none
  | _ => none

/-- openPdfInTab: picks the first free key in the filename, filename (2), …
sequence, derives the display label, appends the entry (its DOM node starts
without the active class) and activates the new tab.  persistStateToSession,
called last in the source, does not change this state. -/
def openPdfInTab (st : TabState) (filename url aimTitle : String) : TabState :=
  let baseKey := filename
  let tabKey := freshTabKey (st.openPdfs.map (fun p => p.1)) baseKey
  let label := if jsTrim aimTitle = "" then filename else jsTrim aimTitle
  let displayLabel :=
    if tabKey = baseKey then label
    else label ++ " (" ++ ((trailingParenNum tabKey).getD "") ++ ")"
  let entry : TabEntry :=
    { tab := { activeClass := false }, url := url, label := displayLabel,
      filename := some filename, aimTitle := label }
  activatePdfTab { st with openPdfs := st.openPdfs ++ [(tabKey, entry)] } tabKey

/-- delete openPdfs[tabKey] (JS object keys are unique; the first match is it). -/
def jsDelete (l : List (String × TabEntry)) (k : String) : List (String × TabEntry) :=
  l.eraseP (fun p => p.1 == k)

/-- closePdfTab: removes the tab; if it was active, activates the first
remaining key or clears the active key and blanks the viewer; otherwise clears
anyway when no tabs remain. -/
def closePdfTab (st : TabState) (tabKey : String) : TabState :=
  match jsLookup st.openPdfs tabKey with
  | none => st
  | some _ =>
    let rest := jsDelete st.openPdfs tabKey
    let st1 : TabState := { st with openPdfs := rest }
    if st.activePdfKey = some tabKey then
      match rest with
      | [] => { st1 with activePdfKey := none, viewerSrc := "" }
      | (k, _) :: _ => activatePdfTab st1 k
    else
      if rest.isEmpty then { st1 with activePdfKey := none, viewerSrc := "" }
      else st1

example :
    (openPdfInTab { openPdfs := [], activePdfKey := none, viewerSrc := "" }
      "a.pdf" "static/pdfs/1920s/a.pdf" "T").activePdfKey = some "a.pdf" := by decide

example :
    (openPdfInTab
      (openPdfInTab { openPdfs := [], activePdfKey := none, viewerSrc := "" }
        "a.pdf" "u" "T") "a.pdf" "u" "T").openPdfs.map (fun p => p.1) =
    ["a.pdf", "a.pdf (2)"] := by decide

/-- substring test of JS String.prototype.includes. -/
def includesAux (nd : List Char) : List Char → Bool
  | [] => nd.isEmpty
  | c :: cs => nd.isPrefixOf (c :: cs) || includesAux nd cs

/-- haystack.includes(needle). -/
def strIncludes (hay needle : String) : Bool := includesAux needle.data hay.data

/-!
## Session persistence of tabs (app.js lines 1104-1180)

The archive feed (archive.json grouped by decade) is modelled by the fields
the restore path reads: decade keys with their rows, each row carrying a
filename and the ui_label_2 display title.
-/

structure ArchiveRow where
  ui_label_2 : String
  filename : String
deriving DecidableEq, Repr

/-- archiveData: decade key to rows, in feed insertion order. -/
def ArchiveData := List (String × List ArchiveRow)

/-- Inner search of findArchiveRowByFilename over the decade lists. -/
def findRowAux (fname : String) : List (String × List ArchiveRow) → Option ArchiveRow
  | [] => none
  | (_, rows) :: rest =>
    match rows.find? (fun r => jsTrim r.filename == fname) with
    | some r => some r
    | none => findRowAux fname rest

/-- findArchiveRowByFilename: trims the filename, empty means no match,
otherwise the first row over all decades whose trimmed filename matches. -/
def findArchiveRowByFilename (archive : List (String × List ArchiveRow))
    (filename : String) : Option ArchiveRow :=
  let fname := jsTrim filename
  if fname = "" then none else findRowAux fname archive

/-- One persisted open-tab record {filename, url, label, aimTitle}; the
persisted filename field is the tab key (the loop variable of the for-in). -/
structure PersistedTab where
  filename : String
  url : String
  label : String
  aimTitle : String
deriving DecidableEq, Repr

/-- The openTabs part of persistStateToSession. -/
def persistTabs (st : TabState) : List PersistedTab :=
  st.openPdfs.map (fun p =>
    { filename := p.1, url := p.2.url, label := p.2.label, aimTitle := p.2.aimTitle })

/-- JS digit test of the regexes used on tab keys. -/
def isDigitChar (c : Char) : Bool := 48 <= c.toNat && c.toNat <= 57

/-- s.replace(re-trailing-paren-group, empty).trim() applied to a persisted tab
key, where the regex matches optional whitespace, a parenthesized digit group
and optional whitespace at the end of the string. -/
def stripDupSuffixData (cs : List Char) : List Char :=
  let rev := cs.reverse.dropWhile jsIsSpace
  match rev with
  | ')' :: rest =>
    let digs := rest.takeWhile isDigitChar
    if digs.isEmpty then cs
    else
      match rest.drop digs.length with
      | '(' :: rest2 => (rest2.dropWhile jsIsSpace).reverse
      | _ => cs
  | _ => cs

def stripDupSuffix (s : String) : String := jsTrim (String.mk (stripDupSuffixData s.data))

/-- The entry that restoreStateFromSession registers for one persisted tab:
title resolved by archive lookup on the base filename, else the persisted
aimTitle / label / filename fallback chain; no filename field is stored. -/
def restoreTabEntry (archive : List (String × List ArchiveRow)) (t : PersistedTab) : TabEntry :=
  let baseFilename := stripDupSuffix t.filename
  let row := findArchiveRowByFilename archive baseFilename
  let restoredTitle :=
    match row with
    | some r => jsTrim r.ui_label_2
    | none => jsOr t.aimTitle (jsOr t.label t.filename)
  { tab := { activeClass := false }, url := t.url,
    label := jsOr restoredTitle t.filename,
    filename := none, aimTitle := jsOr restoredTitle t.filename }

/-- One iteration of the restore foreach: skip keys that are already open,
otherwise append the rebuilt tab. -/
def restoreTabsStep (archive : List (String × List ArchiveRow))
    (st : TabState) (t : PersistedTab) : TabState :=
  match jsLookup st.openPdfs t.filename with
  | some _ => st
  | none => { st with openPdfs := st.openPdfs ++ [(t.filename, restoreTabEntry archive t)] }

/-- The openTabs part of restoreStateFromSession: guarded on a non-empty list,
rebuild each tab, then activate the first persisted key. -/
def restoreTabs (archive : List (String × List ArchiveRow))
    (st : TabState) (openTabs : List PersistedTab) : TabState :=
  if openTabs.isEmpty then st
  else
    let st1 := openTabs.foldl (restoreTabsStep archive) st
    match openTabs with
    | [] => st1
    | first :: _ => activatePdfTab st1 first.filename

/-- The close handler attached to a session-restored tab (app.js 1152-1161):
it deletes the entry and, only when the viewer source mentions the persisted
filename, activates the next key or blanks the viewer; the active key is
never updated.  (The DOM src property would hold an absolutized form of the
assigned URL; the relative form preserves the substring test on filenames.) -/
def restoredTabClose (st : TabState) (tFilename : String) : TabState :=
  let rest := jsDelete st.openPdfs tFilename
  let st1 : TabState := { st with openPdfs := rest }
  if st1.viewerSrc ≠ "" && strIncludes st1.viewerSrc tFilename then
    match rest with
    | [] => { st1 with viewerSrc := "" }
    | (k, _) :: _ => activatePdfTab st1 k
  else st1

/-- C10: activating an unknown tab key is a no-op: the active key, every
tab active marking and the viewer source are all left unchanged. -/
theorem c10_activatePdfTab_unknown_noop (st : TabState) (tabKey : String)
    (h : jsLookup st.openPdfs tabKey = none) :
    activatePdfTab st tabKey = st := by
  unfold activatePdfTab
  rw [h]

/-- Witness for C10 at a concrete state with one open tab and a missing key. -/
theorem c10_activatePdfTab_unknown_noop_witness :
    jsLookup [("a.pdf",
      ({ tab := { activeClass := true }, url := "u", label := "L",
         filename := some "a.pdf", aimTitle := "L" } : TabEntry))] "b.pdf" = none ∧
    activatePdfTab
      { openPdfs := [("a.pdf",
          { tab := { activeClass := true }, url := "u", label := "L",
            filename := some "a.pdf", aimTitle := "L" })],
        activePdfKey := some "a.pdf", viewerSrc := "v" } "b.pdf" =
      { openPdfs := [("a.pdf",
          { tab := { activeClass := true }, url := "u", label := "L",
            filename := some "a.pdf", aimTitle := "L" })],
        activePdfKey := some "a.pdf", viewerSrc := "v" } :=
  ⟨by decide, c10_activatePdfTab_unknown_noop _ "b.pdf" (by decide)⟩

/-- The disambiguating duplicate key: base followed by a parenthesized counter. -/
def dupKey (base : String) (n : Nat) : String := base ++ " (" ++ natStr n ++ ")"

theorem dupKey_inj (base : String) {m j : Nat} (h : dupKey base m = dupKey base j) : m = j := by
  have hd := congrArg String.data h
  simp only [dupKey, string_data_append] at hd
  have h1 := List.append_cancel_right hd
  have h2 := List.append_cancel_left h1
  exact natStr_injective (string_eq_of_data _ _ h2)

theorem freshKeyAux_spec (keys : List String) (base : String) :
    ∀ fuel n, (∃ j, n ≤ j ∧ j < n + fuel ∧ keys.contains (dupKey base j) = false) →
    ∃ m, n ≤ m ∧ keys.contains (dupKey base m) = false ∧
      (∀ j, n ≤ j → j < m → keys.contains (dupKey base j) = true) ∧
      freshKeyAux keys base fuel n = dupKey base m := by
  intro fuel
  induction fuel with
  | zero =>
    rintro n ⟨j, hj1, hj2, _⟩
    exact absurd (by omega : n + 0 ≤ j) (by omega)
  | succ fuel ih =>
    rintro n ⟨j, hj1, hj2, hj3⟩
    by_cases hc : keys.contains (dupKey base n) = true
    · have hjn : j ≠ n := by
        intro he
        subst he
        rw [hj3] at hc
        exact Bool.false_ne_true hc
      obtain ⟨m, hm1, hm2, hm3, hm4⟩ := ih (n + 1) ⟨j, by omega, by omega, hj3⟩
      refine ⟨m, by omega, hm2, ?_, ?_⟩
      · intro i hi1 hi2
        by_cases hin : i = n
        · rw [hin]
          exact hc
        · exact hm3 i (by omega) hi2
      · simp only [freshKeyAux]
        rw [show (base ++ " (" ++ natStr n ++ ")") = dupKey base n from rfl, if_pos hc]
        exact hm4
    · have hcf : keys.contains (dupKey base n) = false := by
        cases hcc : keys.contains (dupKey base n)
        · rfl
        · exact absurd hcc hc
      refine ⟨n, Nat.le_refl n, hcf, ?_, ?_⟩
      · intro i hi1 hi2
        omega
      · simp only [freshKeyAux]
        rw [show (base ++ " (" ++ natStr n ++ ")") = dupKey base n from rfl, if_neg hc]

theorem contains_true_mem {keys : List String} {s : String}
    (h : keys.contains s = true) : s ∈ keys := by
  simpa using h

theorem mem_contains_true {keys : List String} {s : String}
    (h : s ∈ keys) : keys.contains s = true := by
  simpa using h

theorem exists_free_dupKey (keys : List String) (base : String) :
    ∃ j, 2 ≤ j ∧ j < 2 + (keys.length + 1) ∧ keys.contains (dupKey base j) = false := by
  by_contra hcon
  push_neg at hcon
  have hall : ∀ j, 2 ≤ j → j < keys.length + 3 → dupKey base j ∈ keys := by
    intro j h1 h2
    have hne := hcon j h1 (by omega)
    have hb : keys.contains (dupKey base j) = true := by
      cases hcc : keys.contains (dupKey base j)
      · exact absurd hcc hne
      · rfl
    exact contains_true_mem hb
  have hinj : Function.Injective (fun i : Nat => dupKey base (i + 2)) := by
    intro a b hab
    have := dupKey_inj base hab
    omega
  have hsub : (Finset.range (keys.length + 1)).image (fun i => dupKey base (i + 2)) ⊆
      keys.toFinset := by
    intro x hx
    rw [Finset.mem_image] at hx
    obtain ⟨i, hi, rfl⟩ := hx
    rw [List.mem_toFinset]
    rw [Finset.mem_range] at hi
    exact hall (i + 2) (by omega) (by omega)
  have hcard := Finset.card_le_card hsub
  rw [Finset.card_image_of_injective _ hinj, Finset.card_range] at hcard
  have hlen := List.toFinset_card_le (l := keys)
  omega

theorem freshTabKey_spec (keys : List String) (base : String)
    (hbase : keys.contains base = true) :
    ∃ m, 2 ≤ m ∧ keys.contains (dupKey base m) = false ∧
      (∀ j, 2 ≤ j → j < m → keys.contains (dupKey base j) = true) ∧
      freshTabKey keys base = dupKey base m := by
  obtain ⟨m, hm1, hm2, hm3, hm4⟩ :=
    freshKeyAux_spec keys base (keys.length + 1) 2 (exists_free_dupKey keys base)
  refine ⟨m, hm1, hm2, hm3, ?_⟩
  rw [freshTabKey, if_pos hbase]
  exact hm4

theorem jsLookup_cons (p : String × TabEntry) (l : List (String × TabEntry)) (k : String) :
    jsLookup (p :: l) k = if p.1 == k then some p.2 else jsLookup l k := by
  unfold jsLookup
  rw [List.find?_cons]
  by_cases h : p.1 == k
  · rw [if_pos h]
    simp [h]
  · rw [if_neg h]
    simp only [Bool.not_eq_true] at h
    simp [h]

theorem jsLookup_append_last (l : List (String × TabEntry)) (k : String) (e : TabEntry)
    (hfree : ∀ p ∈ l, p.1 ≠ k) : jsLookup (l ++ [(k, e)]) k = some e := by
  induction l with
  | nil =>
    simp [jsLookup, List.find?]
  | cons p l ih =>
    rw [List.cons_append, jsLookup_cons]
    have hp : p.1 ≠ k := hfree p (List.mem_cons_self p l)
    rw [if_neg (by simpa using hp)]
    exact ih (fun q hq => hfree q (List.mem_cons_of_mem p hq))

/-- Lookup through the active-class reassignment map of activatePdfTab. -/
theorem jsLookup_activeMap (l : List (String × TabEntry)) (k key : String) :
    jsLookup (l.map (fun p => (p.1, { p.2 with tab := { activeClass := p.1 == key } }))) k =
      (jsLookup l k).map (fun e => { e with tab := { activeClass := k == key } }) := by
  induction l with
  | nil => rfl
  | cons p l ih =>
    rw [List.map_cons, jsLookup_cons, jsLookup_cons]
    by_cases h : p.1 == k
    · have hk : p.1 = k := by simpa using h
      rw [if_pos h, if_pos h]
      subst hk
      rfl
    · rw [if_neg h, if_neg h]
      exact ih

theorem map_fst_activeMap (l : List (String × TabEntry)) (key : String) :
    (l.map (fun p => (p.1, { p.2 with tab := { activeClass := p.1 == key } }))).map
        (fun p => p.1) = l.map (fun p => p.1) := by
  rw [List.map_map]
  rfl

theorem jsLookup_eraseP_ne (l : List (String × TabEntry)) (k1 k2 : String) (hne : k1 ≠ k2) :
    jsLookup (l.eraseP (fun p => p.1 == k1)) k2 = jsLookup l k2 := by
  induction l with
  | nil => rfl
  | cons p l ih =>
    by_cases h : p.1 == k1
    · rw [List.eraseP_cons_of_pos (p := fun q : String × TabEntry => q.1 == k1) h, jsLookup_cons]
      have hp1 : p.1 = k1 := by simpa using h
      rw [if_neg (by simp [hp1]; exact hne)]
    · rw [List.eraseP_cons_of_neg (p := fun q : String × TabEntry => q.1 == k1) h, jsLookup_cons, jsLookup_cons]
      by_cases h2 : p.1 == k2
      · rw [if_pos h2, if_pos h2]
      · rw [if_neg h2, if_neg h2]
        exact ih

/-- C4: if filename is already an open tab key, openPdfInTab picks the key with
the smallest unused counter suffix (counters start at 2), appends the new entry
at the end, and makes it the active tab; and closing one tab never changes the
entry, key or label of another tab (in particular of a duplicate of the same
document). -/
theorem c4_openPdfInTab_duplicates (st : TabState) (filename url aimTitle : String)
    (hopen : (st.openPdfs.map (fun p => p.1)).contains filename = true) :
    (∃ m, 2 ≤ m ∧
      (st.openPdfs.map (fun p => p.1)).contains (dupKey filename m) = false ∧
      (∀ j, 2 ≤ j → j < m →
        (st.openPdfs.map (fun p => p.1)).contains (dupKey filename j) = true) ∧
      (openPdfInTab st filename url aimTitle).openPdfs.map (fun p => p.1) =
        st.openPdfs.map (fun p => p.1) ++ [dupKey filename m] ∧
      (openPdfInTab st filename url aimTitle).activePdfKey = some (dupKey filename m) ∧
      (∃ e, jsLookup (openPdfInTab st filename url aimTitle).openPdfs (dupKey filename m) =
          some e ∧ e.tab.activeClass = true ∧ e.url = url)) ∧
    (∀ k1 k2 e2, k1 ≠ k2 → jsLookup st.openPdfs k2 = some e2 →
      ∃ e2', jsLookup (closePdfTab st k1).openPdfs k2 = some e2' ∧
        e2'.url = e2.url ∧ e2'.label = e2.label ∧
        e2'.filename = e2.filename ∧ e2'.aimTitle = e2.aimTitle) := by
  constructor
  · obtain ⟨m, hm1, hm2, hm3, hm4⟩ :=
      freshTabKey_spec (st.openPdfs.map (fun p => p.1)) filename hopen
    have hnotmem : dupKey filename m ∉ st.openPdfs.map (fun p => p.1) := by
      intro hmem
      rw [mem_contains_true hmem] at hm2
      exact Bool.false_ne_true hm2.symm
    have hfree : ∀ p ∈ st.openPdfs, p.1 ≠ dupKey filename m := by
      intro p hp he
      exact hnotmem (he ▸ List.mem_map_of_mem (fun q => q.1) hp)
    simp only [openPdfInTab, hm4]
    set E : TabEntry :=
      { tab := { activeClass := false }, url := url,
        label := if dupKey filename m = filename
          then (if jsTrim aimTitle = "" then filename else jsTrim aimTitle)
          else (if jsTrim aimTitle = "" then filename else jsTrim aimTitle) ++ " (" ++
            ((trailingParenNum (dupKey filename m)).getD "") ++ ")",
        filename := some filename,
        aimTitle := if jsTrim aimTitle = "" then filename else jsTrim aimTitle } with hE
    have hlook : jsLookup (st.openPdfs ++ [(dupKey filename m, E)]) (dupKey filename m) =
        some E := jsLookup_append_last st.openPdfs (dupKey filename m) E hfree
    refine ⟨m, hm1, hm2, hm3, ?_, ?_, ?_⟩
    · simp only [activatePdfTab, hlook]
      rw [map_fst_activeMap]
      simp [List.map_append]
    · simp only [activatePdfTab, hlook]
    · refine ⟨{ E with tab := { activeClass := true } }, ?_, rfl, rfl⟩
      simp only [activatePdfTab, hlook]
      rw [jsLookup_activeMap (st.openPdfs ++ [(dupKey filename m, E)])
        (dupKey filename m) (dupKey filename m), hlook]
      simp
  · intro k1 k2 e2 hne hlk2
    cases hlk1 : jsLookup st.openPdfs k1 with
    | none =>
      refine ⟨e2, ?_, rfl, rfl, rfl, rfl⟩
      simp only [closePdfTab, hlk1]
      exact hlk2
    | some e1 =>
      have hrl : jsLookup (jsDelete st.openPdfs k1) k2 = some e2 := by
        rw [jsDelete, jsLookup_eraseP_ne st.openPdfs k1 k2 hne]
        exact hlk2
      by_cases hact : st.activePdfKey = some k1
      · cases hrest : jsDelete st.openPdfs k1 with
        | nil =>
          rw [hrest] at hrl
          simp [jsLookup] at hrl
        | cons q tl =>
          refine ⟨{ e2 with tab := { activeClass := k2 == q.1 } }, ?_, rfl, rfl, rfl, rfl⟩
          simp only [closePdfTab, hlk1, hrest, if_pos hact]
          have hq : jsLookup (q :: tl) q.1 = some q.2 := by
            rw [jsLookup_cons, if_pos (by simp)]
          simp only [activatePdfTab, hq]
          rw [jsLookup_activeMap (q :: tl) k2 q.1]
          rw [← hrest, hrl]
          rfl
      · have hne2 : jsDelete st.openPdfs k1 ≠ [] := by
          intro hemp
          rw [hemp] at hrl
          simp [jsLookup] at hrl
        refine ⟨e2, ?_, rfl, rfl, rfl, rfl⟩
        simp only [closePdfTab, hlk1, if_neg hact]
        rw [if_neg (by simpa [List.isEmpty_iff] using hne2)]
        exact hrl

/-- Concrete two-duplicate state used by the C4 witness. -/
def w4State : TabState :=
  { openPdfs := [("report.pdf",
      { tab := { activeClass := false }, url := "u", label := "R",
        filename := some "report.pdf", aimTitle := "R" }),
     ("report.pdf (2)",
      { tab := { activeClass := true }, url := "u", label := "R (2)",
        filename := some "report.pdf", aimTitle := "R" })],
    activePdfKey := some "report.pdf (2)", viewerSrc := "v" }

/-- Witness for C4: two duplicate tabs of report.pdf are open; opening the
filename again and closing a duplicate satisfy the stated properties. -/
theorem c4_openPdfInTab_duplicates_witness :
    ((w4State.openPdfs.map (fun p => p.1)).contains "report.pdf" = true) ∧
    ((∃ m, 2 ≤ m ∧
      (w4State.openPdfs.map (fun p => p.1)).contains (dupKey "report.pdf" m) = false ∧
      (∀ j, 2 ≤ j → j < m →
        (w4State.openPdfs.map (fun p => p.1)).contains (dupKey "report.pdf" j) = true) ∧
      (openPdfInTab w4State "report.pdf" "u" "R").openPdfs.map (fun p => p.1) =
        w4State.openPdfs.map (fun p => p.1) ++ [dupKey "report.pdf" m] ∧
      (openPdfInTab w4State "report.pdf" "u" "R").activePdfKey =
        some (dupKey "report.pdf" m) ∧
      (∃ e, jsLookup (openPdfInTab w4State "report.pdf" "u" "R").openPdfs
          (dupKey "report.pdf" m) = some e ∧ e.tab.activeClass = true ∧ e.url = "u")) ∧
    (∀ k1 k2 e2, k1 ≠ k2 → jsLookup w4State.openPdfs k2 = some e2 →
      ∃ e2', jsLookup (closePdfTab w4State k1).openPdfs k2 = some e2' ∧
        e2'.url = e2.url ∧ e2'.label = e2.label ∧
        e2'.filename = e2.filename ∧ e2'.aimTitle = e2.aimTitle)) :=
  ⟨by decide, c4_openPdfInTab_duplicates w4State "report.pdf" "u" "R" (by decide)⟩

/-- C2 (code bug evaluation): restoring a session with the single tab a.pdf and
closing it through the close handler that restoreStateFromSession attaches
leaves zero tabs and a blanked viewer, yet activePdfKey still holds a.pdf,
an entry that has been removed from openPdfs — the restored-tab close handler
never updates activePdfKey, unlike closePdfTab. -/
theorem c2_restoredClose_dangling_active_key :
    (restoreTabs [] { openPdfs := [], activePdfKey := none, viewerSrc := "" }
      [{ filename := "a.pdf", url := "static/pdfs/1920s/a.pdf",
         label := "a.pdf", aimTitle := "T" }]).activePdfKey = some "a.pdf" ∧
    (restoredTabClose
      (restoreTabs [] { openPdfs := [], activePdfKey := none, viewerSrc := "" }
        [{ filename := "a.pdf", url := "static/pdfs/1920s/a.pdf",
           label := "a.pdf", aimTitle := "T" }]) "a.pdf").openPdfs = [] ∧
    (restoredTabClose
      (restoreTabs [] { openPdfs := [], activePdfKey := none, viewerSrc := "" }
        [{ filename := "a.pdf", url := "static/pdfs/1920s/a.pdf",
           label := "a.pdf", aimTitle := "T" }]) "a.pdf").viewerSrc = "" ∧
    (restoredTabClose
      (restoreTabs [] { openPdfs := [], activePdfKey := none, viewerSrc := "" }
        [{ filename := "a.pdf", url := "static/pdfs/1920s/a.pdf",
           label := "a.pdf", aimTitle := "T" }]) "a.pdf").activePdfKey = some "a.pdf" := by
  decide

/-- The tab state of a fresh page load: no open tabs, no active key, empty viewer. -/
def emptyTabState : TabState := { openPdfs := [], activePdfKey := none, viewerSrc := "" }

/-- The replay that claim C3 compares restore against: openPdfInTab on each
persisted (filename, url, title) in order, then activate the first tab. -/
def replayTabs (st : TabState) (ts : List PersistedTab) : TabState :=
  let st1 := ts.foldl (fun s t => openPdfInTab s t.filename t.url t.aimTitle) st
  match ts with
  | [] => st1
  | first :: _ => activatePdfTab st1 first.filename

theorem jsLookup_append_cases (l1 l2 : List (String × TabEntry)) (k : String) :
    jsLookup (l1 ++ l2) k =
      match jsLookup l1 k with
      | some e => some e
      | none => jsLookup l2 k := by
  induction l1 with
  | nil => rfl
  | cons p l ih =>
    rw [List.cons_append, jsLookup_cons, jsLookup_cons]
    by_cases h : p.1 == k
    · rw [if_pos h, if_pos h]
    · rw [if_neg h, if_neg h]
      exact ih

theorem activatePdfTab_proj (st : TabState) (k : String) :
    (activatePdfTab st k).openPdfs.map (fun p => (p.1, p.2.url)) =
      st.openPdfs.map (fun p => (p.1, p.2.url)) := by
  unfold activatePdfTab
  cases h : jsLookup st.openPdfs k
  · rfl
  · rw [List.map_map]
    rfl

theorem activatePdfTab_active_of_found (st : TabState) (k : String) (e : TabEntry)
    (h : jsLookup st.openPdfs k = some e) :
    (activatePdfTab st k).activePdfKey = some k := by
  unfold activatePdfTab
  rw [h]

theorem activatePdfTab_keys (st : TabState) (k : String) :
    (activatePdfTab st k).openPdfs.map (fun p => p.1) = st.openPdfs.map (fun p => p.1) := by
  unfold activatePdfTab
  cases h : jsLookup st.openPdfs k
  · rfl
  · exact map_fst_activeMap st.openPdfs k

/-- The restore foreach appends one rebuilt tab per persisted record when no
persisted key is already open and the persisted keys are distinct. -/
theorem restore_fold_openPdfs (archive : List (String × List ArchiveRow)) :
    ∀ (ts : List PersistedTab) (st : TabState),
    (∀ t ∈ ts, jsLookup st.openPdfs t.filename = none) →
    (ts.map (fun t => t.filename)).Nodup →
    ts.foldl (restoreTabsStep archive) st =
      { st with openPdfs :=
          st.openPdfs ++ ts.map (fun t => (t.filename, restoreTabEntry archive t)) } := by
  intro ts
  induction ts with
  | nil =>
    intro st _ _
    simp
  | cons t rest ih =>
    intro st hdisj hnd
    rw [List.foldl_cons]
    have hstep : restoreTabsStep archive st t =
        { st with openPdfs := st.openPdfs ++ [(t.filename, restoreTabEntry archive t)] } := by
      unfold restoreTabsStep
      rw [hdisj t (List.mem_cons_self t rest)]
    rw [hstep]
    rw [List.map_cons, List.nodup_cons] at hnd
    have hdisj2 : ∀ t2 ∈ rest,
        jsLookup (st.openPdfs ++ [(t.filename, restoreTabEntry archive t)]) t2.filename =
          none := by
      intro t2 ht2
      rw [jsLookup_append_cases, hdisj t2 (List.mem_cons_of_mem t ht2)]
      rw [jsLookup_cons]
      have hne : t.filename ≠ t2.filename := by
        intro he
        exact hnd.1 (he ▸ List.mem_map_of_mem (fun t => t.filename) ht2)
      rw [if_neg (by simpa using hne)]
      rfl
    rw [ih _ hdisj2 hnd.2]
    simp

/-- openPdfInTab on a filename that is not yet a key appends that very key with
the given url and makes it active. -/
theorem openPdfInTab_fresh_spec (st : TabState) (f u a : String)
    (hfree : (st.openPdfs.map (fun p => p.1)).contains f = false) :
    (openPdfInTab st f u a).openPdfs.map (fun p => (p.1, p.2.url)) =
      st.openPdfs.map (fun p => (p.1, p.2.url)) ++ [(f, u)] ∧
    (openPdfInTab st f u a).activePdfKey = some f := by
  have hkey : freshTabKey (st.openPdfs.map (fun p => p.1)) f = f := by
    rw [freshTabKey, hfree]
    rfl
  have hfreemem : ∀ p ∈ st.openPdfs, p.1 ≠ f := by
    intro p hp he
    have hmem : f ∈ st.openPdfs.map (fun q => q.1) :=
      he ▸ List.mem_map_of_mem (fun q => q.1) hp
    rw [mem_contains_true hmem] at hfree
    exact Bool.false_ne_true hfree.symm
  simp only [openPdfInTab, hkey]
  constructor
  · rw [activatePdfTab_proj]
    simp
  · exact activatePdfTab_active_of_found _ f _
      (jsLookup_append_last st.openPdfs f _ hfreemem)

/-- Replaying openPdfInTab over distinct fresh filenames appends them in order. -/
theorem open_fold_proj :
    ∀ (ts : List PersistedTab) (st : TabState),
    (∀ t ∈ ts, (st.openPdfs.map (fun p => p.1)).contains t.filename = false) →
    (ts.map (fun t => t.filename)).Nodup →
    ((ts.foldl (fun s t => openPdfInTab s t.filename t.url t.aimTitle) st).openPdfs.map
        (fun p => (p.1, p.2.url)) =
      st.openPdfs.map (fun p => (p.1, p.2.url)) ++ ts.map (fun t => (t.filename, t.url))) := by
  intro ts
  induction ts with
  | nil =>
    intro st _ _
    simp
  | cons t rest ih =>
    intro st hdisj hnd
    rw [List.foldl_cons]
    obtain ⟨hproj, _⟩ :=
      openPdfInTab_fresh_spec st t.filename t.url t.aimTitle (hdisj t (List.mem_cons_self t rest))
    rw [List.map_cons, List.nodup_cons] at hnd
    have hkeys : (openPdfInTab st t.filename t.url t.aimTitle).openPdfs.map (fun p => p.1) =
        st.openPdfs.map (fun p => p.1) ++ [t.filename] := by
      have h2 := congrArg (fun l => l.map (fun q : String × String => q.1)) hproj
      simpa [List.map_map, Function.comp] using h2
    have hdisj2 : ∀ t2 ∈ rest,
        ((openPdfInTab st t.filename t.url t.aimTitle).openPdfs.map
          (fun p => p.1)).contains t2.filename = false := by
      intro t2 ht2
      rw [hkeys]
      have hne : t.filename ≠ t2.filename := by
        intro he
        exact hnd.1 (he ▸ List.mem_map_of_mem (fun t => t.filename) ht2)
      have h1 := hdisj t2 (List.mem_cons_of_mem t ht2)
      cases hc : (st.openPdfs.map (fun p => p.1) ++ [t.filename]).contains t2.filename
      · rfl
      · exfalso
        have := contains_true_mem hc
        rw [List.mem_append] at this
        rcases this with hmem | hmem
        · rw [mem_contains_true hmem] at h1
          exact Bool.false_ne_true h1.symm
        · simp at hmem
          exact hne hmem.symm
    rw [ih _ hdisj2 hnd.2, hproj]
    simp

theorem jsLookup_mem_keys (l : List (String × TabEntry)) (k : String)
    (h : k ∈ l.map (fun p => p.1)) : ∃ e, jsLookup l k = some e := by
  induction l with
  | nil => simp at h
  | cons p l ih =>
    rw [jsLookup_cons]
    by_cases hp : p.1 == k
    · exact ⟨p.2, by rw [if_pos hp]⟩
    · rw [if_neg hp]
      apply ih
      rw [List.map_cons, List.mem_cons] at h
      rcases h with h | h
      · exact absurd (by simpa using h.symm) hp
      · exact h

/-- C3 counterexample: with an archive row giving a.pdf the display title B, a
persisted tab {filename a.pdf, label A, aimTitle A} restores with label B,
while replaying openPdfInTab("a.pdf", u, A) yields label A; the states differ,
so restore is not the replay of openPdfInTab plus activation. -/
theorem c3_restore_not_replay_counterexample :
    ((jsLookup (restoreTabs [("1920s", [{ ui_label_2 := "B", filename := "a.pdf" }])]
        emptyTabState
        [{ filename := "a.pdf", url := "u", label := "A", aimTitle := "A" }]).openPdfs
        "a.pdf").map (fun e => e.label) = some "B") ∧
    ((jsLookup (replayTabs emptyTabState
        [{ filename := "a.pdf", url := "u", label := "A", aimTitle := "A" }]).openPdfs
        "a.pdf").map (fun e => e.label) = some "A") ∧
    restoreTabs [("1920s", [{ ui_label_2 := "B", filename := "a.pdf" }])] emptyTabState
        [{ filename := "a.pdf", url := "u", label := "A", aimTitle := "A" }] ≠
      replayTabs emptyTabState
        [{ filename := "a.pdf", url := "u", label := "A", aimTitle := "A" }] := by
  decide

/-- C3 amended: restore is a separate code path whose entries may differ from
replayed ones (labels, filename field) and whose close handler differs, but it
yields the same ordered tab keys with the same urls, and the same active key
(the first persisted tab), as replaying openPdfInTab and activating the first. -/
theorem c3_restore_replay_same_keys_active
    (archive : List (String × List ArchiveRow)) (ts : List PersistedTab)
    (hnd : (ts.map (fun t => t.filename)).Nodup) :
    ((restoreTabs archive emptyTabState ts).openPdfs.map (fun p => (p.1, p.2.url)) =
      (replayTabs emptyTabState ts).openPdfs.map (fun p => (p.1, p.2.url))) ∧
    (restoreTabs archive emptyTabState ts).activePdfKey =
      (replayTabs emptyTabState ts).activePdfKey := by
  cases ts with
  | nil => exact ⟨rfl, rfl⟩
  | cons t rest =>
    have hdisj1 : ∀ t2 ∈ t :: rest, jsLookup emptyTabState.openPdfs t2.filename = none := by
      intro t2 _
      rfl
    have hdisj2 : ∀ t2 ∈ t :: rest,
        (emptyTabState.openPdfs.map (fun p => p.1)).contains t2.filename = false := by
      intro t2 _
      rfl
    have hfold := restore_fold_openPdfs archive (t :: rest) emptyTabState hdisj1 hnd
    have hfold2 := open_fold_proj (t :: rest) emptyTabState hdisj2 hnd
    have hrestore : restoreTabs archive emptyTabState (t :: rest) =
        activatePdfTab
          { openPdfs := (t :: rest).map (fun t2 => (t2.filename, restoreTabEntry archive t2)),
            activePdfKey := none, viewerSrc := "" }
          t.filename := by
      unfold restoreTabs
      rw [if_neg (by simp)]
      rw [hfold]
      rfl
    have hreplay : replayTabs emptyTabState (t :: rest) =
        activatePdfTab
          ((t :: rest).foldl (fun s t2 => openPdfInTab s t2.filename t2.url t2.aimTitle)
            emptyTabState)
          t.filename := by
      unfold replayTabs
      rfl
    constructor
    · rw [hrestore, hreplay, activatePdfTab_proj, activatePdfTab_proj, hfold2]
      rw [show ((t :: rest).map (fun t2 => (t2.filename, restoreTabEntry archive t2))).map
          (fun p => (p.1, p.2.url)) = (t :: rest).map (fun t2 => (t2.filename, t2.url)) by
        rw [List.map_map]
        rfl]
      simp [emptyTabState]
    · rw [hrestore, hreplay]
      have h1 : ∃ e, jsLookup
          ((t :: rest).map (fun t2 => (t2.filename, restoreTabEntry archive t2))) t.filename =
          some e := by
        apply jsLookup_mem_keys
        simp
      have hkeys2 : ((t :: rest).foldl
            (fun s t2 => openPdfInTab s t2.filename t2.url t2.aimTitle)
            emptyTabState).openPdfs.map (fun p => p.1) =
          (t :: rest).map (fun t2 => t2.filename) := by
        have h2 := congrArg (fun l => l.map (fun q : String × String => q.1)) hfold2
        simpa [List.map_map, Function.comp] using h2
      have h2 : ∃ e, jsLookup
          ((t :: rest).foldl (fun s t2 => openPdfInTab s t2.filename t2.url t2.aimTitle)
            emptyTabState).openPdfs t.filename = some e := by
        apply jsLookup_mem_keys
        rw [hkeys2]
        simp
      obtain ⟨e1, he1⟩ := h1
      obtain ⟨e2, he2⟩ := h2
      rw [activatePdfTab_active_of_found _ _ _ he1]
      rw [activatePdfTab_active_of_found _ _ _ he2]

/-- Witness for the amended C3 theorem at two concrete persisted tabs. -/
theorem c3_restore_replay_same_keys_active_witness :
    (([({ filename := "a.pdf", url := "u", label := "A", aimTitle := "A" } : PersistedTab),
       { filename := "b.pdf", url := "v", label := "B", aimTitle := "B" }].map
        (fun t => t.filename)).Nodup) ∧
    (((restoreTabs [] emptyTabState
        [{ filename := "a.pdf", url := "u", label := "A", aimTitle := "A" },
         { filename := "b.pdf", url := "v", label := "B", aimTitle := "B" }]).openPdfs.map
          (fun p => (p.1, p.2.url)) =
      (replayTabs emptyTabState
        [{ filename := "a.pdf", url := "u", label := "A", aimTitle := "A" },
         { filename := "b.pdf", url := "v", label := "B", aimTitle := "B" }]).openPdfs.map
          (fun p => (p.1, p.2.url))) ∧
    (restoreTabs [] emptyTabState
        [{ filename := "a.pdf", url := "u", label := "A", aimTitle := "A" },
         { filename := "b.pdf", url := "v", label := "B", aimTitle := "B" }]).activePdfKey =
      (replayTabs emptyTabState
        [{ filename := "a.pdf", url := "u", label := "A", aimTitle := "A" },
         { filename := "b.pdf", url := "v", label := "B", aimTitle := "B" }]).activePdfKey) :=
  ⟨by decide, c3_restore_replay_same_keys_active []
    [{ filename := "a.pdf", url := "u", label := "A", aimTitle := "A" },
     { filename := "b.pdf", url := "v", label := "B", aimTitle := "B" }] (by decide)⟩

/-!
## Session persistence of overlay checkboxes (app.js lines 607-806, 1104-1136)

The imagery-toggle panel is modelled by its checkboxes (data-id and checked
flag): the built-in Street Overlay box (checked by default), the OSM box
(unchecked by default), and one box per feed row (checked per default_on).
Grouping by decade only reorders boxes and is irrelevant to the persisted
set.  Enabling a layer and checking its box are tied together by the change
events both the user and the restore path fire, so the set of enabled overlay
identifiers is the set of checked box ids — exactly what
persistStateToSession reads back.
-/

structure OverlayRow where
  ui_group : String
  ui_label : String
  url : String
  default_on : String
deriving DecidableEq, Repr

structure Checkbox where
  id : String
  checked : Bool
deriving DecidableEq, Repr

/-- default_on parsing: true / yes / 1 (lowercased). -/
def defaultOnChecked (r : OverlayRow) : Bool :=
  jsToLower r.default_on == "true" || jsToLower r.default_on == "yes" ||
  jsToLower r.default_on == "1"

/-- The post-load rule that force-enables any row whose label or url mentions
imagery (app.js lines 789-799). -/
def imageryForced (r : OverlayRow) : Bool :=
  strIncludes (jsToLower r.ui_label) "imagery" || strIncludes (jsToLower r.url) "imagery" ||
  strIncludes (jsToLower r.url) "imagerylabels"

/-- Check the box with the given data-id (and fire its change event); boxes
with other ids, and a missing id, are untouched. -/
def checkId (panel : List Checkbox) (id : String) : List Checkbox :=
  panel.map (fun cb => if cb.id == id then { cb with checked := true } else cb)

def applyImageryDefaults (rows : List OverlayRow) (panel : List Checkbox) : List Checkbox :=
  rows.foldl (fun p r => if imageryForced r then checkId p r.ui_label else p) panel

/-- The checkbox panel of a fresh session after the imagery feed loads. -/
def freshPanel (rows : List OverlayRow) : List Checkbox :=
  applyImageryDefaults rows
    ({ id := "Street Overlay", checked := true } :: { id := "OSM", checked := false } ::
      rows.map (fun r => { id := r.ui_label, checked := defaultOnChecked r }))

/-- The enabledLayers part of persistStateToSession: ids of checked boxes. -/
def persistLayers (panel : List Checkbox) : List String :=
  (panel.filter (fun cb => cb.checked)).map (fun cb => cb.id)

/-- The enabledLayers part of restoreStateFromSession: guarded on a non-empty
list, re-check (and fire change for) each persisted id found in the panel. -/
def restoreLayers (panel : List Checkbox) (ids : List String) : List Checkbox :=
  if ids.isEmpty then panel else ids.foldl checkId panel

/-- The set of enabled overlay identifiers read off the panel. -/
def checkedIds (panel : List Checkbox) : List String := persistLayers panel

theorem restoreLayers_eq_foldl (panel : List Checkbox) (ids : List String) :
    restoreLayers panel ids = ids.foldl checkId panel := by
  cases ids
  · rfl
  · rfl

theorem checkId_map_id (p : List Checkbox) (i : String) :
    (checkId p i).map (fun cb => cb.id) = p.map (fun cb => cb.id) := by
  induction p with
  | nil => rfl
  | cons cb p ih =>
    by_cases h : cb.id == i
    · simp only [checkId, List.map_cons] at ih ⊢
      rw [if_pos h]
      simpa using ih
    · simp only [checkId, List.map_cons] at ih ⊢
      rw [if_neg h]
      simpa using ih

theorem mem_checkedIds (p : List Checkbox) (x : String) :
    x ∈ checkedIds p ↔ ∃ cb ∈ p, cb.id = x ∧ cb.checked = true := by
  simp only [checkedIds, persistLayers, List.mem_map, List.mem_filter]
  constructor
  · rintro ⟨cb, ⟨hmem, hch⟩, rfl⟩
    exact ⟨cb, hmem, rfl, hch⟩
  · rintro ⟨cb, hmem, rfl, hch⟩
    exact ⟨cb, ⟨hmem, hch⟩, rfl⟩

theorem mem_checkedIds_checkId (p : List Checkbox) (i x : String) :
    x ∈ checkedIds (checkId p i) ↔
      (x ∈ checkedIds p ∨ (x = i ∧ i ∈ p.map (fun cb => cb.id))) := by
  rw [mem_checkedIds, mem_checkedIds]
  simp only [checkId, List.mem_map]
  constructor
  · rintro ⟨cb', ⟨cb, hmem, rfl⟩, hid, hch⟩
    by_cases h : cb.id == i
    · rw [if_pos h] at hid hch
      have hcbi : cb.id = i := by simpa using h
      refine Or.inr ⟨?_, ⟨cb, hmem, hcbi⟩⟩
      rw [← hid]
      exact hcbi
    · rw [if_neg h] at hid hch
      exact Or.inl ⟨cb, hmem, hid, hch⟩
  · rintro (⟨cb, hmem, hid, hch⟩ | ⟨rfl, cb, hmem, hid⟩)
    · refine ⟨if cb.id == i then { cb with checked := true } else cb, ⟨cb, hmem, rfl⟩, ?_, ?_⟩
      · by_cases h : cb.id == i
        · rw [if_pos h]
          exact hid
        · rw [if_neg h]
          exact hid
      · by_cases h : cb.id == i
        · rw [if_pos h]
        · rw [if_neg h]
          exact hch
    · refine ⟨{ cb with checked := true }, ⟨cb, hmem, ?_⟩, hid, rfl⟩
      rw [if_pos (by simpa using hid)]

theorem mem_checkedIds_foldl_checkId (ids : List String) :
    ∀ (p : List Checkbox) (x : String),
    x ∈ checkedIds (ids.foldl checkId p) ↔
      (x ∈ checkedIds p ∨ (x ∈ ids ∧ x ∈ p.map (fun cb => cb.id))) := by
  induction ids with
  | nil =>
    intro p x
    simp
  | cons i rest ih =>
    intro p x
    rw [List.foldl_cons, ih (checkId p i) x, mem_checkedIds_checkId, checkId_map_id]
    constructor
    · rintro ((h | ⟨rfl, hmem⟩) | ⟨hr, hmem⟩)
      · exact Or.inl h
      · exact Or.inr ⟨List.mem_cons_self x rest, hmem⟩
      · exact Or.inr ⟨List.mem_cons_of_mem i hr, hmem⟩
    · rintro (h | ⟨hmem1, hmem2⟩)
      · exact Or.inl (Or.inl h)
      · rw [List.mem_cons] at hmem1
        rcases hmem1 with rfl | hr
        · exact Or.inl (Or.inr ⟨rfl, hmem2⟩)
        · exact Or.inr ⟨hr, hmem2⟩

/-- C1 counterexample: the user unchecks the default-on Street Overlay box and
checks OSM, then the state is persisted; in a fresh session (where Street
Overlay starts checked) restore re-checks OSM but can never uncheck Street
Overlay, so the restored enabled set {Street Overlay, OSM} differs from the
persisted {OSM} — persist-then-restore does not reproduce the same set of
enabled overlay identifiers. -/
theorem c1_persist_restore_counterexample :
    (([({ id := "Street Overlay", checked := false } : Checkbox),
       { id := "OSM", checked := true }].map (fun cb => cb.id)) =
      (freshPanel []).map (fun cb => cb.id)) ∧
    persistLayers [({ id := "Street Overlay", checked := false } : Checkbox),
       { id := "OSM", checked := true }] = ["OSM"] ∧
    ("Street Overlay" ∈ checkedIds (restoreLayers (freshPanel [])
       ["OSM"])) ∧
    ("Street Overlay" ∉ checkedIds [({ id := "Street Overlay", checked := false } : Checkbox),
       { id := "OSM", checked := true }]) ∧
    checkedIds (restoreLayers (freshPanel []) ["OSM"]) ≠
      checkedIds [({ id := "Street Overlay", checked := false } : Checkbox),
        { id := "OSM", checked := true }] := by
  decide

/-- C1 amended: restoring a persisted state in a fresh session yields, as the
set of enabled overlay identifiers, the union of the fresh session defaults
with the persisted set (equal to the persisted set exactly when every
default-enabled box was still checked at persist time); the open tabs are
reproduced with the same keys in the same order, with the first persisted tab
active (or the empty tab state if nothing was open). -/
theorem c1_restore_reproduces_up_to_defaults
    (rows : List OverlayRow) (panel : List Checkbox)
    (archive : List (String × List ArchiveRow)) (st : TabState)
    (hids : panel.map (fun cb => cb.id) = (freshPanel rows).map (fun cb => cb.id))
    (hnd : (st.openPdfs.map (fun p => p.1)).Nodup) :
    (∀ x, x ∈ checkedIds (restoreLayers (freshPanel rows) (persistLayers panel)) ↔
      (x ∈ checkedIds (freshPanel rows) ∨ x ∈ checkedIds panel)) ∧
    ((restoreTabs archive emptyTabState (persistTabs st)).openPdfs.map (fun p => p.1) =
      st.openPdfs.map (fun p => p.1)) ∧
    (∀ k e tl, st.openPdfs = (k, e) :: tl →
      (restoreTabs archive emptyTabState (persistTabs st)).activePdfKey = some k) ∧
    (st.openPdfs = [] → restoreTabs archive emptyTabState (persistTabs st) = emptyTabState) := by
  have hpt : persistTabs st = st.openPdfs.map (fun p =>
      ({ filename := p.1, url := p.2.url, label := p.2.label,
         aimTitle := p.2.aimTitle } : PersistedTab)) := rfl
  have hfn : (persistTabs st).map (fun t => t.filename) = st.openPdfs.map (fun p => p.1) := by
    rw [hpt, List.map_map]
    rfl
  have hnd2 : ((persistTabs st).map (fun t => t.filename)).Nodup := by
    rw [hfn]
    exact hnd
  have hdisj : ∀ t ∈ persistTabs st, jsLookup emptyTabState.openPdfs t.filename = none := by
    intro t _
    rfl
  have hfold := restore_fold_openPdfs archive (persistTabs st) emptyTabState hdisj hnd2
  refine ⟨?_, ?_, ?_, ?_⟩
  · intro x
    rw [restoreLayers_eq_foldl, mem_checkedIds_foldl_checkId]
    constructor
    · rintro (h | ⟨h1, _⟩)
      · exact Or.inl h
      · exact Or.inr h1
    · rintro (h | h)
      · exact Or.inl h
      · refine Or.inr ⟨h, ?_⟩
        rw [← hids]
        rw [mem_checkedIds] at h
        obtain ⟨cb, hm, rfl, _⟩ := h
        exact List.mem_map_of_mem (fun cb => cb.id) hm
  · cases hsp : st.openPdfs with
    | nil =>
      have hempty : persistTabs st = [] := by
        rw [hpt, hsp]
        rfl
      rw [hempty]
      rfl
    | cons q tl =>
      have hts : persistTabs st =
          ({ filename := q.1, url := q.2.url, label := q.2.label,
             aimTitle := q.2.aimTitle } : PersistedTab) ::
            tl.map (fun p =>
              ({ filename := p.1, url := p.2.url, label := p.2.label,
                 aimTitle := p.2.aimTitle } : PersistedTab)) := by
        rw [hpt, hsp, List.map_cons]
      have hrt : restoreTabs archive emptyTabState (persistTabs st) =
          activatePdfTab
            { openPdfs := (persistTabs st).map
                (fun t2 => (t2.filename, restoreTabEntry archive t2)),
              activePdfKey := none, viewerSrc := "" } q.1 := by
        unfold restoreTabs
        rw [hfold]
        rw [hts]
        rw [if_neg (by simp)]
        rfl
      rw [hrt, activatePdfTab_keys]
      show ((persistTabs st).map
          (fun t2 => (t2.filename, restoreTabEntry archive t2))).map (fun p => p.1) =
        (q :: tl).map (fun p => p.1)
      rw [List.map_map]
      rw [hsp] at hfn
      exact hfn
  · intro k e tl hsp
    have hts : persistTabs st =
        ({ filename := k, url := e.url, label := e.label,
           aimTitle := e.aimTitle } : PersistedTab) ::
          tl.map (fun p =>
            ({ filename := p.1, url := p.2.url, label := p.2.label,
               aimTitle := p.2.aimTitle } : PersistedTab)) := by
      rw [hpt, hsp, List.map_cons]
    have hrt : restoreTabs archive emptyTabState (persistTabs st) =
        activatePdfTab
          { openPdfs := (persistTabs st).map
              (fun t2 => (t2.filename, restoreTabEntry archive t2)),
            activePdfKey := none, viewerSrc := "" } k := by
      unfold restoreTabs
      rw [hfold]
      rw [hts]
      rw [if_neg (by simp)]
      rfl
    rw [hrt]
    apply activatePdfTab_active_of_found
    rw [hts, List.map_cons, jsLookup_cons]
    rw [if_pos (by simp)]
  · intro hsp
    have hempty : persistTabs st = [] := by
      rw [hpt, hsp]
      rfl
    rw [hempty]
    rfl

/-- Concrete panel and tab state for the C1 witness: OSM checked, Street
Overlay unchecked, one open tab b.pdf. -/
def c1Panel : List Checkbox :=
  [{ id := "Street Overlay", checked := false }, { id := "OSM", checked := true }]

def c1TabState : TabState :=
  { openPdfs := [("b.pdf",
      { tab := { activeClass := true }, url := "u", label := "B",
        filename := some "b.pdf", aimTitle := "B" })],
    activePdfKey := some "b.pdf", viewerSrc := "v" }

/-- Witness for the amended C1 theorem at a concrete panel and tab state. -/
theorem c1_restore_reproduces_up_to_defaults_witness :
    (c1Panel.map (fun cb => cb.id) = (freshPanel []).map (fun cb => cb.id)) ∧
    ((c1TabState.openPdfs.map (fun p => p.1)).Nodup) ∧
    ((∀ x, x ∈ checkedIds (restoreLayers (freshPanel []) (persistLayers c1Panel)) ↔
      (x ∈ checkedIds (freshPanel []) ∨ x ∈ checkedIds c1Panel)) ∧
    ((restoreTabs [] emptyTabState (persistTabs c1TabState)).openPdfs.map (fun p => p.1) =
      c1TabState.openPdfs.map (fun p => p.1)) ∧
    (∀ k e tl, c1TabState.openPdfs = (k, e) :: tl →
      (restoreTabs [] emptyTabState (persistTabs c1TabState)).activePdfKey = some k) ∧
    (c1TabState.openPdfs = [] →
      restoreTabs [] emptyTabState (persistTabs c1TabState) = emptyTabState)) :=
  ⟨by decide, by decide,
    c1_restore_reproduces_up_to_defaults [] c1Panel [] c1TabState (by decide) (by decide)⟩

/-!
## Floating window manager (app.js lines 213-386)

Windows are modelled page-wide in DOM order, each carrying its hosting pane,
data-key, display state, style z-index (none while unset — getComputedStyle
then yields a non-numeric value that parseInt turns into NaN, which the max
scan skips) and cascade position.  Dock buttons carry their dock and key;
docksShown holds the ids of visible docks.
-/

structure FloatWin where
  pane : String
  key : String
  title : String
  visible : Bool
  z : Option Nat
  left : Nat
  top : Nat
deriving DecidableEq, Repr

structure DockBtn where
  dock : String
  key : String
deriving DecidableEq, Repr

structure WinState where
  wins : List FloatWin
  btns : List DockBtn
  docksShown : List String
deriving DecidableEq, Repr

/-- The max scan of bringToFront: parseInt z-indexes of every floating window
on the page, starting from the base 10000; windows without a numeric z-index
are skipped (NaN comparisons are false). -/
def maxZBase (wins : List FloatWin) : Nat :=
  wins.foldl (fun acc w => match w.z with | some n => max acc n | none => acc) 10000

def setZAt : List FloatWin → Nat → Nat → List FloatWin
  | [], _, _ => []
  | w :: ws, 0, z => { w with z := some z } :: ws
  | w :: ws, i+1, z => w :: setZAt ws i z

/-- bringToFront(winEl): sets the window z-index to one more than the scan max. -/
def bringToFront (st : WinState) (i : Nat) : WinState :=
  { st with wins := setZAt st.wins i (maxZBase st.wins + 1) }

def setVisibleAt : List FloatWin → Nat → List FloatWin
  | [], _ => []
  | w :: ws, 0 => { w with visible := true } :: ws
  | w :: ws, i+1 => w :: setVisibleAt ws i

/-- paneEl.querySelector(.floating-window[data-key=key]): index of the first
window of that pane with that key, in DOM order. -/
def findWinIdx : List FloatWin → String → String → Option Nat
  | [], _, _ => none
  | w :: ws, paneId, key =>
    if w.pane == paneId && w.key == key then some 0
    else (findWinIdx ws paneId key).map (fun j => j + 1)

def hasDockBtn (btns : List DockBtn) (dockId key : String) : Bool :=
  btns.any (fun b => b.dock == dockId && b.key == key)

def removeDockBtn (btns : List DockBtn) (dockId key : String) : List DockBtn :=
  btns.eraseP (fun b => b.dock == dockId && b.key == key)

/-- maybeHideDock: hide the dock when it holds no buttons. -/
def maybeHideDock (st : WinState) (dockId : String) : WinState :=
  if (st.btns.filter (fun b => b.dock == dockId)).isEmpty then
    { st with docksShown := st.docksShown.filter (fun d => !(d == dockId)) }
  else st

/-- openFloatingWindow: when a window with the key already exists in the pane
it is unhidden, raised and its dock button (if any) removed, and that same
element is returned; otherwise a new window is appended with a cascade offset
proportional to the pane's window count, then raised.  The returned number is
the index of the returned window element in page DOM order. -/
def openFloatingWindow (st : WinState) (paneId dockId key title : String) :
    WinState × Nat :=
  match findWinIdx st.wins paneId key with
  | some i =>
    let wins1 := setVisibleAt st.wins i
    let wins2 := setZAt wins1 i (maxZBase wins1 + 1)
    let st1 : WinState := { st with wins := wins2 }
    let st2 :=
      if hasDockBtn st1.btns dockId key then
        maybeHideDock { st1 with btns := removeDockBtn st1.btns dockId key } dockId
      else st1
    (st2, i)
  | none =>
    let count := (st.wins.filter (fun w => w.pane == paneId)).length
    let w : FloatWin := { pane := paneId, key := key, title := title, visible := true,
                          z := none, left := 20 + count * 18, top := 80 + count * 18 }
    let wins1 := st.wins ++ [w]
    let wins2 := setZAt wins1 (wins1.length - 1) (maxZBase wins1 + 1)
    ({ st with wins := wins2 }, wins1.length - 1)

theorem setZAt_get? (l : List FloatWin) (i : Nat) (z : Nat) :
    (setZAt l i z).get? i = (l.get? i).map (fun w => { w with z := some z }) := by
  induction l generalizing i with
  | nil => cases i <;> rfl
  | cons w ws ih =>
    cases i with
    | zero => rfl
    | succ i => exact ih i

theorem setZAt_map_pk (l : List FloatWin) (i : Nat) (z : Nat) :
    (setZAt l i z).map (fun w => (w.pane, w.key)) = l.map (fun w => (w.pane, w.key)) := by
  induction l generalizing i with
  | nil => cases i <;> rfl
  | cons w ws ih =>
    cases i with
    | zero => rfl
    | succ i =>
      simp only [setZAt, List.map_cons]
      rw [ih i]

theorem setVisibleAt_get? (l : List FloatWin) (i : Nat) :
    (setVisibleAt l i).get? i = (l.get? i).map (fun w => { w with visible := true }) := by
  induction l generalizing i with
  | nil => cases i <;> rfl
  | cons w ws ih =>
    cases i with
    | zero => rfl
    | succ i => exact ih i

theorem setVisibleAt_map_pk (l : List FloatWin) (i : Nat) :
    (setVisibleAt l i).map (fun w => (w.pane, w.key)) = l.map (fun w => (w.pane, w.key)) := by
  induction l generalizing i with
  | nil => cases i <;> rfl
  | cons w ws ih =>
    cases i with
    | zero => rfl
    | succ i =>
      simp only [setVisibleAt, List.map_cons]
      rw [ih i]

theorem setVisibleAt_z (l : List FloatWin) (i : Nat) :
    (setVisibleAt l i).map (fun w => w.z) = l.map (fun w => w.z) := by
  induction l generalizing i with
  | nil => cases i <;> rfl
  | cons w ws ih =>
    cases i with
    | zero => rfl
    | succ i =>
      simp only [setVisibleAt, List.map_cons]
      rw [ih i]

theorem maxZBase_eq_foldl_map (l : List FloatWin) :
    maxZBase l = (l.map (fun w => w.z)).foldl
      (fun acc oz => match oz with | some n => max acc n | none => acc) 10000 := by
  rw [maxZBase, List.foldl_map]

theorem maxZBase_congr_z (l1 l2 : List FloatWin)
    (h : l1.map (fun w => w.z) = l2.map (fun w => w.z)) : maxZBase l1 = maxZBase l2 := by
  rw [maxZBase_eq_foldl_map, maxZBase_eq_foldl_map, h]

theorem findWinIdx_spec :
    ∀ (l : List FloatWin) (paneId key : String) (i : Nat),
    findWinIdx l paneId key = some i →
    ∃ w, l.get? i = some w ∧ w.pane = paneId ∧ w.key = key := by
  intro l
  induction l with
  | nil =>
    intro paneId key i h
    cases h
  | cons w ws ih =>
    intro paneId key i h
    rw [findWinIdx] at h
    by_cases hw : w.pane == paneId && w.key == key
    · rw [if_pos hw] at h
      cases h
      simp only [Bool.and_eq_true, beq_iff_eq] at hw
      exact ⟨w, rfl, hw.1, hw.2⟩
    · rw [if_neg hw] at h
      cases hidx : findWinIdx ws paneId key with
      | none =>
        rw [hidx] at h
        cases h
      | some j =>
        rw [hidx] at h
        simp only [Option.map_some'] at h
        obtain ⟨w2, hget, hp, hk⟩ := ih paneId key j hidx
        have hi := Option.some.inj h
        subst hi
        exact ⟨w2, hget, hp, hk⟩

theorem filter_le_one_eraseP (p : DockBtn → Bool) :
    ∀ (l : List DockBtn), (l.filter p).length ≤ 1 →
    ∀ b ∈ l.eraseP p, p b = false := by
  intro l
  induction l with
  | nil =>
    intro _ b hb
    cases hb
  | cons q l ih =>
    intro hlen b hb
    by_cases hq : p q
    · rw [List.eraseP_cons_of_pos (p := p) hq] at hb
      rw [List.filter_cons_of_pos hq] at hlen
      simp only [List.length_cons] at hlen
      have hnil : l.filter p = [] := List.length_eq_zero.mp (by omega)
      have := List.filter_eq_nil_iff.mp hnil b hb
      cases hpb : p b
      · rfl
      · exact absurd hpb this
    · rw [List.eraseP_cons_of_neg (p := p) hq] at hb
      rw [List.filter_cons_of_neg hq] at hlen
      rw [List.mem_cons] at hb
      rcases hb with rfl | hb
      · cases hpb : p b
        · rfl
        · exact absurd hpb hq
      · exact ih hlen b hb

theorem foldl_zscan_ge_init :
    ∀ (zs : List (Option Nat)) (acc : Nat),
    acc ≤ zs.foldl (fun a oz => match oz with | some n => max a n | none => a) acc := by
  intro zs
  induction zs with
  | nil =>
    intro acc
    exact Nat.le_refl acc
  | cons oz zs ih =>
    intro acc
    rw [List.foldl_cons]
    refine Nat.le_trans ?_ (ih _)
    cases oz
    · exact Nat.le_refl acc
    · exact Nat.le_max_left _ _

theorem foldl_zscan_ge_mem :
    ∀ (zs : List (Option Nat)) (acc n : Nat), some n ∈ zs →
    n ≤ zs.foldl (fun a oz => match oz with | some n => max a n | none => a) acc := by
  intro zs
  induction zs with
  | nil =>
    intro acc n h
    cases h
  | cons oz zs ih =>
    intro acc n h
    rw [List.foldl_cons]
    rw [List.mem_cons] at h
    rcases h with h | h
    · subst h
      refine Nat.le_trans (Nat.le_max_right acc n) (foldl_zscan_ge_init zs _)
    · exact ih _ n h

theorem foldl_zscan_le :
    ∀ (zs : List (Option Nat)) (acc M : Nat), acc ≤ M → (∀ n, some n ∈ zs → n ≤ M) →
    zs.foldl (fun a oz => match oz with | some n => max a n | none => a) acc ≤ M := by
  intro zs
  induction zs with
  | nil =>
    intro acc M hacc _
    exact hacc
  | cons oz zs ih =>
    intro acc M hacc hub
    rw [List.foldl_cons]
    refine ih _ M ?_ (fun n hn => hub n (List.mem_cons_of_mem oz hn))
    cases oz with
    | none => exact hacc
    | some m =>
      have hm := hub m (List.mem_cons_self _ zs)
      exact Nat.max_le.mpr ⟨hacc, hm⟩

theorem maxZBase_ge_mem (wins : List FloatWin) (w : FloatWin) (n : Nat)
    (hw : w ∈ wins) (hz : w.z = some n) : n ≤ maxZBase wins := by
  rw [maxZBase_eq_foldl_map]
  apply foldl_zscan_ge_mem
  rw [List.mem_map]
  exact ⟨w, hw, hz⟩

theorem maxZBase_le (wins : List FloatWin) (M : Nat) (hM : 10000 ≤ M)
    (hub : ∀ w ∈ wins, ∀ n, w.z = some n → n ≤ M) : maxZBase wins ≤ M := by
  rw [maxZBase_eq_foldl_map]
  apply foldl_zscan_le _ _ M hM
  intro n hn
  rw [List.mem_map] at hn
  obtain ⟨w, hw, hz⟩ := hn
  exact hub w hw n hz

/-- C8: bringToFront gives the window a z-index strictly greater than every
floating window's previous z-index anywhere on the page (both panes share the
one scan), and whenever any window already carries a z-index at or above the
base 10000 — true of every window the manager has raised — the new z-index is
exactly the page-wide maximum plus one, never less. -/
theorem c8_bringToFront_global_front (st : WinState) (i : Nat) (hi : i < st.wins.length) :
    (∃ w, (bringToFront st i).wins.get? i = some w ∧
      w.z = some (maxZBase st.wins + 1)) ∧
    (∀ w ∈ st.wins, ∀ n, w.z = some n → n < maxZBase st.wins + 1) ∧
    (∀ M, 10000 ≤ M →
      (∃ w ∈ st.wins, w.z = some M) →
      (∀ w ∈ st.wins, ∀ n, w.z = some n → n ≤ M) →
      maxZBase st.wins + 1 = M + 1) := by
  refine ⟨?_, ?_, ?_⟩
  · obtain ⟨w0, hw0⟩ : ∃ w0, st.wins.get? i = some w0 := by
      cases hg : st.wins.get? i with
      | none =>
        rw [List.get?_eq_none] at hg
        omega
      | some w0 => exact ⟨w0, rfl⟩
    refine ⟨{ w0 with z := some (maxZBase st.wins + 1) }, ?_, rfl⟩
    show (setZAt st.wins i (maxZBase st.wins + 1)).get? i = _
    rw [setZAt_get?, hw0]
    rfl
  · intro w hw n hz
    have h := maxZBase_ge_mem st.wins w n hw hz
    omega
  · rintro M hM ⟨w, hw, hz⟩ hub
    have h1 := maxZBase_ge_mem st.wins w M hw hz
    have h2 := maxZBase_le st.wins M hM hub
    omega

/-- Witness for C8 on a page with one window in each pane. -/
theorem c8_bringToFront_global_front_witness :
    (0 < ([({ pane := "left-pane", key := "a", title := "A", visible := true,
              z := some 10001, left := 20, top := 80 } : FloatWin),
           { pane := "right-pane", key := "b", title := "B", visible := true,
             z := some 10005, left := 20, top := 80 }] : List FloatWin).length) ∧
    ((∃ w, (bringToFront
        { wins := [{ pane := "left-pane", key := "a", title := "A", visible := true,
                     z := some 10001, left := 20, top := 80 },
                   { pane := "right-pane", key := "b", title := "B", visible := true,
                     z := some 10005, left := 20, top := 80 }],
          btns := [], docksShown := [] } 0).wins.get? 0 = some w ∧
      w.z = some (maxZBase
        [{ pane := "left-pane", key := "a", title := "A", visible := true,
           z := some 10001, left := 20, top := 80 },
         { pane := "right-pane", key := "b", title := "B", visible := true,
           z := some 10005, left := 20, top := 80 }] + 1)) ∧
    (∀ w ∈ [({ pane := "left-pane", key := "a", title := "A", visible := true,
               z := some 10001, left := 20, top := 80 } : FloatWin),
            { pane := "right-pane", key := "b", title := "B", visible := true,
              z := some 10005, left := 20, top := 80 }], ∀ n, w.z = some n →
      n < maxZBase
        [{ pane := "left-pane", key := "a", title := "A", visible := true,
           z := some 10001, left := 20, top := 80 },
         { pane := "right-pane", key := "b", title := "B", visible := true,
           z := some 10005, left := 20, top := 80 }] + 1) ∧
    (∀ M, 10000 ≤ M →
      (∃ w ∈ [({ pane := "left-pane", key := "a", title := "A", visible := true,
                 z := some 10001, left := 20, top := 80 } : FloatWin),
              { pane := "right-pane", key := "b", title := "B", visible := true,
                z := some 10005, left := 20, top := 80 }], w.z = some M) →
      (∀ w ∈ [({ pane := "left-pane", key := "a", title := "A", visible := true,
                 z := some 10001, left := 20, top := 80 } : FloatWin),
              { pane := "right-pane", key := "b", title := "B", visible := true,
                z := some 10005, left := 20, top := 80 }], ∀ n, w.z = some n → n ≤ M) →
      maxZBase
        [{ pane := "left-pane", key := "a", title := "A", visible := true,
           z := some 10001, left := 20, top := 80 },
         { pane := "right-pane", key := "b", title := "B", visible := true,
           z := some 10005, left := 20, top := 80 }] + 1 = M + 1)) :=
  ⟨by decide, c8_bringToFront_global_front
    { wins := [{ pane := "left-pane", key := "a", title := "A", visible := true,
                 z := some 10001, left := 20, top := 80 },
               { pane := "right-pane", key := "b", title := "B", visible := true,
                 z := some 10005, left := 20, top := 80 }],
      btns := [], docksShown := [] } 0 (by decide)⟩

theorem maybeHideDock_btns (st : WinState) (d : String) :
    (maybeHideDock st d).btns = st.btns := by
  unfold maybeHideDock
  by_cases h : (st.btns.filter (fun b => b.dock == d)).isEmpty
  · rw [if_pos h]
  · rw [if_neg h]

theorem maybeHideDock_wins (st : WinState) (d : String) :
    (maybeHideDock st d).wins = st.wins := by
  unfold maybeHideDock
  by_cases h : (st.btns.filter (fun b => b.dock == d)).isEmpty
  · rw [if_pos h]
  · rw [if_neg h]

/-- C5: opening a window whose key already exists in the pane creates no new
window element: the page keeps exactly the same windows (by pane and key, in
order), the existing window is unhidden and raised to the global front, any
dock button for it is removed, and that same element (by its index in page
order) is returned. -/
theorem c5_openFloatingWindow_existing (st : WinState) (paneId dockId key title : String)
    (i : Nat) (hex : findWinIdx st.wins paneId key = some i)
    (hbtn : (st.btns.filter (fun b => b.dock == dockId && b.key == key)).length ≤ 1) :
    (openFloatingWindow st paneId dockId key title).2 = i ∧
    (openFloatingWindow st paneId dockId key title).1.wins.map (fun w => (w.pane, w.key)) =
      st.wins.map (fun w => (w.pane, w.key)) ∧
    (∃ w, (openFloatingWindow st paneId dockId key title).1.wins.get? i = some w ∧
      w.visible = true ∧ w.pane = paneId ∧ w.key = key ∧
      w.z = some (maxZBase st.wins + 1)) ∧
    (∀ b ∈ (openFloatingWindow st paneId dockId key title).1.btns,
      ¬(b.dock = dockId ∧ b.key = key)) := by
  obtain ⟨w0, hget, hp, hk⟩ := findWinIdx_spec st.wins paneId key i hex
  have hmz : maxZBase (setVisibleAt st.wins i) = maxZBase st.wins :=
    maxZBase_congr_z _ _ (setVisibleAt_z st.wins i)
  simp only [openFloatingWindow, hex]
  have hwins2 :
      ∀ s2 : WinState,
        (if hasDockBtn st.btns dockId key then
          maybeHideDock { st with wins := s2.wins, btns := removeDockBtn st.btns dockId key }
            dockId
        else { st with wins := s2.wins }).wins = s2.wins := by
    intro s2
    by_cases hbd : hasDockBtn st.btns dockId key
    · rw [if_pos hbd, maybeHideDock_wins]
    · rw [if_neg hbd]
  refine ⟨?_, ?_, ?_, ?_⟩
  · by_cases hbd : hasDockBtn st.btns dockId key
    · trivial
    · trivial
  · by_cases hbd : hasDockBtn st.btns dockId key
    · rw [if_pos hbd]
      show (maybeHideDock _ dockId).wins.map _ = _
      rw [maybeHideDock_wins]
      show (setZAt (setVisibleAt st.wins i) i (maxZBase (setVisibleAt st.wins i) + 1)).map
          (fun w => (w.pane, w.key)) = _
      rw [setZAt_map_pk, setVisibleAt_map_pk]
    · rw [if_neg hbd]
      show (setZAt (setVisibleAt st.wins i) i (maxZBase (setVisibleAt st.wins i) + 1)).map
          (fun w => (w.pane, w.key)) = _
      rw [setZAt_map_pk, setVisibleAt_map_pk]
  · refine ⟨{ w0 with visible := true, z := some (maxZBase st.wins + 1) }, ?_, rfl, hp, hk, rfl⟩
    have hw2 : (setZAt (setVisibleAt st.wins i) i
        (maxZBase (setVisibleAt st.wins i) + 1)).get? i =
        some { w0 with visible := true, z := some (maxZBase st.wins + 1) } := by
      rw [setZAt_get?, setVisibleAt_get?, hget, hmz]
      rfl
    by_cases hbd : hasDockBtn st.btns dockId key
    · rw [if_pos hbd]
      show (maybeHideDock _ dockId).wins.get? i = _
      rw [maybeHideDock_wins]
      exact hw2
    · rw [if_neg hbd]
      exact hw2
  · intro b hb
    by_cases hbd : hasDockBtn st.btns dockId key
    · rw [if_pos hbd] at hb
      rw [show (maybeHideDock { st with
          wins := setZAt (setVisibleAt st.wins i) i (maxZBase (setVisibleAt st.wins i) + 1),
          btns := removeDockBtn st.btns dockId key } dockId).btns =
        removeDockBtn st.btns dockId key from maybeHideDock_btns _ dockId] at hb
      have hfb := filter_le_one_eraseP (fun b => b.dock == dockId && b.key == key)
        st.btns hbtn b hb
      have hfb2 : (b.dock == dockId && b.key == key) = false := hfb
      intro hcon
      rw [hcon.1, hcon.2] at hfb2
      simp at hfb2
    · rw [if_neg hbd] at hb
      have hall : ∀ x ∈ st.btns, ¬(x.dock == dockId && x.key == key) = true := by
        have := hbd
        unfold hasDockBtn at this
        rw [Bool.not_eq_true] at this
        rw [List.any_eq_false] at this
        exact this
      have := hall b hb
      intro hcon
      apply this
      rw [hcon.1, hcon.2]
      simp

/-- Concrete window state for the C5 witness: a minimized window with key m and
its dock button, plus a second window in the same pane. -/
def w5State : WinState :=
  { wins := [{ pane := "left-pane", key := "m", title := "M", visible := false,
               z := some 10001, left := 20, top := 80 },
             { pane := "left-pane", key := "p", title := "P", visible := true,
               z := some 10002, left := 38, top := 98 }],
    btns := [{ dock := "map-window-dock", key := "m" }],
    docksShown := ["map-window-dock"] }

/-- Witness for C5 at the concrete state w5State. -/
theorem c5_openFloatingWindow_existing_witness :
    (findWinIdx w5State.wins "left-pane" "m" = some 0) ∧
    ((w5State.btns.filter
      (fun b => b.dock == "map-window-dock" && b.key == "m")).length ≤ 1) ∧
    ((openFloatingWindow w5State "left-pane" "map-window-dock" "m" "M").2 = 0 ∧
    (openFloatingWindow w5State "left-pane" "map-window-dock" "m" "M").1.wins.map
        (fun w => (w.pane, w.key)) =
      w5State.wins.map (fun w => (w.pane, w.key)) ∧
    (∃ w, (openFloatingWindow w5State "left-pane" "map-window-dock" "m" "M").1.wins.get? 0 =
        some w ∧ w.visible = true ∧ w.pane = "left-pane" ∧ w.key = "m" ∧
      w.z = some (maxZBase w5State.wins + 1)) ∧
    (∀ b ∈ (openFloatingWindow w5State "left-pane" "map-window-dock" "m" "M").1.btns,
      ¬(b.dock = "map-window-dock" ∧ b.key = "m"))) :=
  ⟨by decide, by decide,
    c5_openFloatingWindow_existing w5State "left-pane" "map-window-dock" "m" "M" 0
      (by decide) (by decide)⟩

/-!
## Overlay registry (app.js lines 49-604)

An overlay runtime is either a single Leaflet layer (every layer constructed
by addLayerForEntry — tiledMapLayer, basemapLayer, layerGroup — exposes addTo
and remove; setOpacity only on some kinds, recorded as a capability flag) or
the paired {img, lbl} object built for the hybrid service kind, whose wrapper
exposes neither addTo nor setOpacity.  Layers are identified by abstract
handles; the map is the list of attached handles (Leaflet addTo and removeLayer
are idempotent set operations).
-/

inductive OverlayObj where
  | single (layer : Nat) (hasSetOpacity : Bool)
  | paired (img lbl : Nat) (imgHasSetOpacity lblHasSetOpacity : Bool)
deriving DecidableEq, Repr

def lookupOverlay (overlays : List (String × OverlayObj)) (id : String) : Option OverlayObj :=
  match overlays.find? (fun p => p.1 == id) with
  | some p => some p.2
  | none => none

/-- The member layers an overlay contributes to the map. -/
def overlayMembers : OverlayObj → List Nat
  | .single l _ => [l]
  | .paired img lbl _ _ => [img, lbl]

def addIfAbsent (m : List Nat) (x : Nat) : List Nat :=
  if m.contains x then m else m ++ [x]

def removeAll (m : List Nat) (x : Nat) : List Nat :=
  m.filter (fun y => !(y == x))

/-- enableLayer: unknown ids are ignored; a paired runtime adds both members
(imagery first, labels above); a single runtime is added via addTo. -/
def enableLayer (overlays : List (String × OverlayObj)) (m : List Nat) (id : String) :
    List Nat :=
  match lookupOverlay overlays id with
  | none => m
  | some (.paired img lbl _ _) => addIfAbsent (addIfAbsent m img) lbl
  | some (.single l _) => addIfAbsent m l

/-- removeLayer: unknown ids are ignored; a paired runtime removes both
members; a single runtime is removed via its remove method. -/
def removeLayer (overlays : List (String × OverlayObj)) (m : List Nat) (id : String) :
    List Nat :=
  match lookupOverlay overlays id with
  | none => m
  | some (.paired img lbl _ _) => removeAll (removeAll m img) lbl
  | some (.single l _) => removeAll m l

/-!
The opacity value (a JS number in [0,1]) is never computed with by
setLayerOpacity — it is passed through to the member setOpacity call — so the
value type is kept abstract below.
-/

/-- Per-layer opacity records. -/
def setOpac {α : Type} (opac : List (Nat × α)) (l : Nat) (v : α) : List (Nat × α) :=
  opac.map (fun p => if p.1 == l then (p.1, v) else p)

def lookupOpac {α : Type} (opac : List (Nat × α)) (l : Nat) : Option α :=
  match opac.find? (fun p => p.1 == l) with
  | some p => some p.2
  | none => none

/-- setLayerOpacity: obj.setOpacity if the object itself has one (single
layers); else the img member if it has one; ELSE the lbl member — the three
probes are an if / else-if / else-if chain. -/
def setLayerOpacity {α : Type} (overlays : List (String × OverlayObj))
    (opac : List (Nat × α)) (id : String) (v : α) : List (Nat × α) :=
  match lookupOverlay overlays id with
  | none => opac
  | some (.single l hasOp) => if hasOp then setOpac opac l v else opac
  | some (.paired img lbl imgHas lblHas) =>
    if imgHas then setOpac opac img v
    else if lblHas then setOpac opac lbl v
    else opac

theorem mem_removeAll_self (m : List Nat) (x : Nat) : x ∉ removeAll m x := by
  intro h
  rw [removeAll, List.mem_filter] at h
  simp at h

theorem removeAll_subset (m : List Nat) (x y : Nat) (h : y ∈ removeAll m x) : y ∈ m := by
  rw [removeAll, List.mem_filter] at h
  exact h.1

/-- C6: for every registered overlay, enabling then removing leaves no member
layer of that overlay attached to the map; for a paired runtime both the
imagery member and the label member are removed together. -/
theorem c6_enable_then_remove_detaches (overlays : List (String × OverlayObj))
    (m : List Nat) (id : String) (obj : OverlayObj)
    (hreg : lookupOverlay overlays id = some obj) :
    ∀ x ∈ overlayMembers obj, x ∉ removeLayer overlays (enableLayer overlays m id) id := by
  intro x hx hmem
  rw [removeLayer, hreg] at hmem
  cases obj with
  | single l hasOp =>
    rw [overlayMembers] at hx
    simp only [List.mem_singleton] at hx
    subst hx
    exact mem_removeAll_self _ x hmem
  | paired img lbl ih lh =>
    rw [overlayMembers] at hx
    simp only [List.mem_cons, List.mem_singleton] at hx
    rcases hx with rfl | rfl | hx
    · exact mem_removeAll_self _ x (removeAll_subset _ lbl x hmem)
    · exact mem_removeAll_self _ x hmem
    · cases hx

/-- Witness for C6 at a registry with a paired hybrid runtime and a map that
already holds one of its members. -/
theorem c6_enable_then_remove_detaches_witness :
    (lookupOverlay [("Hybrid", OverlayObj.paired 1 2 true true)] "Hybrid" =
      some (OverlayObj.paired 1 2 true true)) ∧
    (∀ x ∈ overlayMembers (OverlayObj.paired 1 2 true true),
      x ∉ removeLayer [("Hybrid", OverlayObj.paired 1 2 true true)]
        (enableLayer [("Hybrid", OverlayObj.paired 1 2 true true)] [0, 1] "Hybrid")
        "Hybrid") :=
  ⟨by decide, c6_enable_then_remove_detaches
    [("Hybrid", OverlayObj.paired 1 2 true true)] [0, 1] "Hybrid"
    (OverlayObj.paired 1 2 true true) (by decide)⟩

/-- C7 counterexample: a paired runtime whose two members both expose an
opacity control, with both currently at opacity 100 (hundredths).  Setting 50
updates only the imagery member; the label member keeps its old value, so the
claim that every member exposing an opacity control receives the new opacity
is false. -/
theorem c7_setLayerOpacity_counterexample :
    (setLayerOpacity [("Hybrid", OverlayObj.paired 1 2 true true)]
      ([(1, 100), (2, 100)] : List (Nat × Nat)) "Hybrid" 50 = [(1, 50), (2, 100)]) ∧
    (lookupOpac (setLayerOpacity [("Hybrid", OverlayObj.paired 1 2 true true)]
      ([(1, 100), (2, 100)] : List (Nat × Nat)) "Hybrid" 50) 2 = some 100) ∧
    ¬(lookupOpac (setLayerOpacity [("Hybrid", OverlayObj.paired 1 2 true true)]
      ([(1, 100), (2, 100)] : List (Nat × Nat)) "Hybrid" 50) 2 = some 50) := by
  refine ⟨by decide, by decide, by decide⟩

theorem lookupOpac_cons {α : Type} (p : Nat × α) (rest : List (Nat × α)) (x : Nat) :
    lookupOpac (p :: rest) x = if p.1 == x then some p.2 else lookupOpac rest x := by
  unfold lookupOpac
  rw [List.find?_cons]
  by_cases h : p.1 == x
  · rw [if_pos h]
    simp [h]
  · rw [if_neg h]
    simp only [Bool.not_eq_true] at h
    simp [h]

theorem lookupOpac_setOpac_ne {α : Type} (opac : List (Nat × α)) (l x : Nat) (v : α)
    (hne : x ≠ l) : lookupOpac (setOpac opac l v) x = lookupOpac opac x := by
  induction opac with
  | nil => rfl
  | cons p rest ih =>
    rw [setOpac, List.map_cons]
    rw [show (rest.map (fun p => if p.1 == l then (p.1, v) else p)) = setOpac rest l v
      from rfl]
    by_cases hpl : p.1 == l
    · rw [if_pos hpl, lookupOpac_cons, lookupOpac_cons]
      have hp1 : p.1 = l := by simpa using hpl
      have hpx : (p.1 == x) = false := by
        simp only [beq_eq_false_iff_ne, ne_eq]
        rw [hp1]
        exact fun he => hne he.symm
      rw [show (((p.1, v) : Nat × α).1 == x) = false from hpx]
      rw [if_neg (by simp), if_neg (by simp)]
      exact ih
    · rw [if_neg hpl, lookupOpac_cons, lookupOpac_cons]
      by_cases hpx : p.1 == x
      · rw [if_pos hpx, if_pos hpx]
      · rw [if_neg hpx, if_neg hpx, ih]

/-- C7 amended: setLayerOpacity applies the value only to the first member in
the probe order (object, imagery, label) that exposes an opacity control; for
a paired runtime whose imagery member exposes it, the imagery member receives
the value and the label member's opacity is unchanged. -/
theorem c7_setLayerOpacity_first_probe {α : Type} (overlays : List (String × OverlayObj))
    (opac : List (Nat × α)) (id : String) (img lbl : Nat) (lblHas : Bool) (v : α)
    (hreg : lookupOverlay overlays id = some (OverlayObj.paired img lbl true lblHas))
    (hne : lbl ≠ img) :
    setLayerOpacity overlays opac id v = setOpac opac img v ∧
    lookupOpac (setLayerOpacity overlays opac id v) lbl = lookupOpac opac lbl := by
  have h1 : setLayerOpacity overlays opac id v = setOpac opac img v := by
    rw [setLayerOpacity, hreg]
    rfl
  exact ⟨h1, by rw [h1, lookupOpac_setOpac_ne opac img lbl v hne]⟩

/-- Witness for the amended C7 theorem. -/
theorem c7_setLayerOpacity_first_probe_witness :
    (lookupOverlay [("Hybrid", OverlayObj.paired 1 2 true true)] "Hybrid" =
      some (OverlayObj.paired 1 2 true true)) ∧
    ((2 : Nat) ≠ 1) ∧
    (setLayerOpacity [("Hybrid", OverlayObj.paired 1 2 true true)]
        ([(1, 100), (2, 100)] : List (Nat × Nat)) "Hybrid" 50 =
      setOpac ([(1, 100), (2, 100)] : List (Nat × Nat)) 1 50 ∧
    lookupOpac (setLayerOpacity [("Hybrid", OverlayObj.paired 1 2 true true)]
        ([(1, 100), (2, 100)] : List (Nat × Nat)) "Hybrid" 50) 2 =
      lookupOpac ([(1, 100), (2, 100)] : List (Nat × Nat)) 2) :=
  ⟨by decide, by decide,
    c7_setLayerOpacity_first_probe [("Hybrid", OverlayObj.paired 1 2 true true)]
      ([(1, 100), (2, 100)] : List (Nat × Nat)) "Hybrid" 1 2 true 50
      (by decide) (by decide)⟩

/-- The normal close path, for contrast with the restored-tab handler: closing
the active tab through closePdfTab leaves either zero tabs with the active key
cleared and the viewer blanked, or a state with exactly one tab carrying the
active class, which is the tab the active key names. -/
theorem closePdfTab_active_good (st : TabState) (tabKey : String) (e : TabEntry)
    (hact : st.activePdfKey = some tabKey)
    (hfound : jsLookup st.openPdfs tabKey = some e)
    (hnd : (st.openPdfs.map (fun p => p.1)).Nodup) :
    ((closePdfTab st tabKey).openPdfs = [] ∧ (closePdfTab st tabKey).activePdfKey = none ∧
      (closePdfTab st tabKey).viewerSrc = "") ∨
    (∃ k e2, (closePdfTab st tabKey).activePdfKey = some k ∧
      jsLookup (closePdfTab st tabKey).openPdfs k = some e2 ∧ e2.tab.activeClass = true ∧
      ((closePdfTab st tabKey).openPdfs.countP (fun p => p.2.tab.activeClass)) = 1) := by
  have hndrest : ((jsDelete st.openPdfs tabKey).map (fun p => p.1)).Nodup := by
    refine List.Nodup.sublist ?_ hnd
    exact List.Sublist.map _ (List.eraseP_sublist st.openPdfs)
  simp only [closePdfTab, hfound, if_pos hact]
  cases hrest : jsDelete st.openPdfs tabKey with
  | nil =>
    left
    exact ⟨rfl, rfl, rfl⟩
  | cons q tl =>
    right
    refine ⟨q.1, { q.2 with tab := { activeClass := true } }, ?_, ?_, rfl, ?_⟩
    · apply activatePdfTab_active_of_found _ _ q.2
      show jsLookup (q :: tl) q.1 = some q.2
      rw [jsLookup_cons, if_pos (by simp)]
    · have hq : jsLookup (q :: tl) q.1 = some q.2 := by
        rw [jsLookup_cons, if_pos (by simp)]
      simp only [activatePdfTab, hq]
      rw [jsLookup_activeMap (q :: tl) q.1 q.1, hq]
      simp
    · have hq : jsLookup (q :: tl) q.1 = some q.2 := by
        rw [jsLookup_cons, if_pos (by simp)]
      simp only [activatePdfTab, hq]
      have hcp : ((q :: tl).map (fun p =>
          (p.1, { p.2 with tab := { activeClass := p.1 == q.1 } }))).countP
          (fun p => p.2.tab.activeClass) = (q :: tl).countP (fun p => p.1 == q.1) := by
        rw [List.countP_map]
        rfl
      rw [hcp]
      rw [hrest] at hndrest
      rw [List.map_cons, List.nodup_cons] at hndrest
      have htail : tl.countP (fun p => p.1 == q.1) = 0 := by
        rw [List.countP_eq_zero]
        intro a ha hbeq
        apply hndrest.1
        rw [List.mem_map]
        exact ⟨a, ha, by simpa using hbeq⟩
      rw [List.countP_cons, htail]
      simp
end AimFredericton
